import Mathlib

/-!
Shallow embedding of the Rust matrix-convolution program (`src/main.rs`).

The grid is a flat row-major `List Nat` of u8 samples (each `< 256`, the type
invariant of `Vec<u8>`), together with `rows` and `cols`.  The result buffer of
a convolution is modelled by `Buf`: its length, its contents as a total
function `Nat → Int` (cells are signed 16-bit values, represented exactly as
integers because every arithmetic step is overflow-checked), and a log of the
indices written, in program order.  Every fallible step of the Rust code is
made explicit:

* `rd arr i` models `arr[i]` on a `Vec<u8>` (panic = `none` when out of range);
* `wr b i v` models `buf[i] = v` (panic = `none` when out of range), and
  records `i` in the write log;
* `sub? a b` models `usize` subtraction `a - b` (panic on underflow in debug
  builds; in release builds the wrapped index is out of range for every case
  arising here, so the program panics either way);
* `i16chk v` models the overflow check on an `i16` arithmetic result
  (`-1 * x` and `a - b` in the source).

`u8 as i16` is a lossless cast and needs no check, so it is the plain
coercion `(· : Int)` applied to the sample before the arithmetic, exactly as
the casts sit in the source.  Each assignment statement of the Rust source is
embedded as one definition, and each `for` loop as one recursive definition.
-/

def upd (f : Nat → Int) (i : Nat) (v : Int) : Nat → Int :=
  fun j => if j = i then v else f j

structure Buf where
  len : Nat
  data : Nat → Int
  log : List Nat

def wr (b : Buf) (i : Nat) (v : Int) : Option Buf :=
  if i < b.len then some ⟨b.len, upd b.data i v, b.log ++ [i]⟩ else none

def rd (arr : List Nat) (i : Nat) : Option Nat :=
  if i < arr.length then some (arr.getD i 0) else none

def sub? (a b : Nat) : Option Nat :=
  if b ≤ a then some (a - b) else none

def i16chk (v : Int) : Option Int :=
  if -32768 ≤ v ∧ v ≤ 32767 then some v else none

/-- `dx[row * new_cols + new_cols - 1] = arr[row * cols + cols - 1] as i16;`
(`main.rs` line 73). -/
def dxSetLast (arr : List Nat) (cols row : Nat) (b : Buf) : Option Buf :=
  (sub? (row * cols + cols) 1).bind fun i =>
  (rd arr i).bind fun v =>
  (sub? (row * (cols + 2) + (cols + 2)) 1).bind fun j =>
  wr b j (v : Int)

/-- `dx[row * new_cols] = -1 * arr[row * cols] as i16;` (`main.rs` line 74). -/
def dxSetFirst (arr : List Nat) (cols row : Nat) (b : Buf) : Option Buf :=
  (rd arr (row * cols)).bind fun v =>
  (i16chk ((-1) * (v : Int))).bind fun w =>
  wr b (row * (cols + 2)) w

/-- `dx[row * new_cols + new_cols - 2] = arr[row * cols + cols - 2] as i16;`
(`main.rs` line 77). -/
def dxSetLast2 (arr : List Nat) (cols row : Nat) (b : Buf) : Option Buf :=
  (sub? (row * cols + cols) 2).bind fun i =>
  (rd arr i).bind fun v =>
  (sub? (row * (cols + 2) + (cols + 2)) 2).bind fun j =>
  wr b j (v : Int)

/-- `dx[row * new_cols + 1] = -1 * arr[row * cols + 1] as i16;`
(`main.rs` line 78). -/
def dxSetFirst2 (arr : List Nat) (cols row : Nat) (b : Buf) : Option Buf :=
  (rd arr (row * cols + 1)).bind fun v =>
  (i16chk ((-1) * (v : Int))).bind fun w =>
  wr b (row * (cols + 2) + 1) w

/-- One iteration of the first loop of `compute_dx` (lines 72–80 of
`main.rs`): the boundary writes for one `row`. -/
def dxBorderRow (arr : List Nat) (cols row : Nat) (b : Buf) : Option Buf :=
  (dxSetLast arr cols row b).bind fun b1 =>
  (dxSetFirst arr cols row b1).bind fun b2 =>
  if 1 < cols then
    (dxSetLast2 arr cols row b2).bind fun b3 =>
    dxSetFirst2 arr cols row b3
  else
    some b2

/-- The first loop of `compute_dx`, iterating `dxBorderRow` for `n` rows
starting at `row`. -/
def dxBorderLoop (arr : List Nat) (cols row n : Nat) (b : Buf) : Option Buf :=
  match n with
  | 0 => some b
  | Nat.succ m => (dxBorderRow arr cols row b).bind fun b1 =>
      dxBorderLoop arr cols (row + 1) m b1

/-- `dx[row * new_cols + 2 + col] = arr[row * cols + col] as i16 -
arr[row * cols + col + 2] as i16;` (`main.rs` line 87). -/
def dxInnerCell (arr : List Nat) (cols row col : Nat) (b : Buf) : Option Buf :=
  (rd arr (row * cols + col)).bind fun a1 =>
  (rd arr (row * cols + col + 2)).bind fun a2 =>
  (i16chk ((a1 : Int) - (a2 : Int))).bind fun v =>
  wr b (row * (cols + 2) + 2 + col) v

/-- The inner `for col in 0..cols-2` loop of `compute_dx`, `n` iterations
starting at `col`. -/
def dxInnerRow (arr : List Nat) (cols row col n : Nat) (b : Buf) : Option Buf :=
  match n with
  | 0 => some b
  | Nat.succ m => (dxInnerCell arr cols row col b).bind fun b1 =>
      dxInnerRow arr cols row (col + 1) m b1

/-- The outer `for row in 0..rows` loop of the interior part of
`compute_dx` (lines 85–89 of `main.rs`). -/
def dxInnerLoop (arr : List Nat) (cols row n : Nat) (b : Buf) : Option Buf :=
  match n with
  | 0 => some b
  | Nat.succ m => (dxInnerRow arr cols row 0 (cols - 2) b).bind fun b1 =>
      dxInnerLoop arr cols (row + 1) m b1

/-- `compute_dx` from `main.rs`: convolution of the grid with `[-1, 0, 1]`
applied horizontally, with padding of width 2.  `none` models a panic. -/
def compute_dx (arr : List Nat) (rows cols : Nat) : Option Buf :=
  (dxBorderLoop arr cols 0 rows ⟨rows * (cols + 2), fun _ => 0, []⟩).bind fun b =>
  if 2 < cols then dxInnerLoop arr cols 0 rows b else some b

/-- `dy[cols * new_rows - col - 1] = arr[cols * rows - col - 1] as i16;`
(`main.rs` line 105). -/
def dySetLast (arr : List Nat) (rows cols col : Nat) (b : Buf) : Option Buf :=
  (sub? (cols * (rows + 2)) col).bind fun t1 =>
  (sub? t1 1).bind fun j =>
  (sub? (cols * rows) col).bind fun t2 =>
  (sub? t2 1).bind fun i =>
  (rd arr i).bind fun v =>
  wr b j (v : Int)

/-- `dy[col] = -1 * arr[col] as i16;` (`main.rs` line 106). -/
def dySetFirst (arr : List Nat) (col : Nat) (b : Buf) : Option Buf :=
  (rd arr col).bind fun v =>
  (i16chk ((-1) * (v : Int))).bind fun w =>
  wr b col w

/-- `dy[cols * (new_rows - 1) - col - 1] = arr[cols * (rows - 1) - col - 1] as
i16;` (`main.rs` line 109). -/
def dySetLast2 (arr : List Nat) (rows cols col : Nat) (b : Buf) : Option Buf :=
  (sub? (rows + 2) 1).bind fun u1 =>
  (sub? (cols * u1) col).bind fun t1 =>
  (sub? t1 1).bind fun j =>
  (sub? rows 1).bind fun u2 =>
  (sub? (cols * u2) col).bind fun t2 =>
  (sub? t2 1).bind fun i =>
  (rd arr i).bind fun v =>
  wr b j (v : Int)

/-- `dy[cols + col] = -1 * arr[cols + col] as i16;` (`main.rs` line 110). -/
def dySetFirst2 (arr : List Nat) (cols col : Nat) (b : Buf) : Option Buf :=
  (rd arr (cols + col)).bind fun v =>
  (i16chk ((-1) * (v : Int))).bind fun w =>
  wr b (cols + col) w

/-- One iteration of the first loop of `compute_dy` (lines 104–112 of
`main.rs`): the boundary writes for one `col`. -/
def dyBorderCol (arr : List Nat) (rows cols col : Nat) (b : Buf) : Option Buf :=
  (dySetLast arr rows cols col b).bind fun b1 =>
  (dySetFirst arr col b1).bind fun b2 =>
  if 1 < rows then
    (dySetLast2 arr rows cols col b2).bind fun b3 =>
    dySetFirst2 arr cols col b3
  else
    some b2

/-- The first loop of `compute_dy`, iterating `dyBorderCol` for `n` columns
starting at `col`. -/
def dyBorderLoop (arr : List Nat) (rows cols col n : Nat) (b : Buf) : Option Buf :=
  match n with
  | 0 => some b
  | Nat.succ m => (dyBorderCol arr rows cols col b).bind fun b1 =>
      dyBorderLoop arr rows cols (col + 1) m b1

/-- `dy[(row + 2) * cols + col] = arr[row * cols + col] as i16 -
arr[(row + 2) * cols + col] as i16;` (`main.rs` line 119). -/
def dyInnerCell (arr : List Nat) (cols row col : Nat) (b : Buf) : Option Buf :=
  (rd arr (row * cols + col)).bind fun a1 =>
  (rd arr ((row + 2) * cols + col)).bind fun a2 =>
  (i16chk ((a1 : Int) - (a2 : Int))).bind fun v =>
  wr b ((row + 2) * cols + col) v

/-- The inner `for col in 0..cols` loop of the interior part of
`compute_dy`, `n` iterations starting at `col`. -/
def dyInnerRow (arr : List Nat) (cols row col n : Nat) (b : Buf) : Option Buf :=
  match n with
  | 0 => some b
  | Nat.succ m => (dyInnerCell arr cols row col b).bind fun b1 =>
      dyInnerRow arr cols row (col + 1) m b1

/-- The outer `for row in 0..rows-2` loop of the interior part of
`compute_dy` (lines 117–121 of `main.rs`). -/
def dyInnerLoop (arr : List Nat) (cols row n : Nat) (b : Buf) : Option Buf :=
  match n with
  | 0 => some b
  | Nat.succ m => (dyInnerRow arr cols row 0 cols b).bind fun b1 =>
      dyInnerLoop arr cols (row + 1) m b1

/-- `compute_dy` from `main.rs`: convolution of the grid with `[-1, 0, 1]`
applied vertically, with padding of width 2.  `none` models a panic. -/
def compute_dy (arr : List Nat) (rows cols : Nat) : Option Buf :=
  (dyBorderLoop arr rows cols 0 cols ⟨cols * (rows + 2), fun _ => 0, []⟩).bind fun b =>
  if 2 < rows then dyInnerLoop arr cols 0 (rows - 2) b else some b

/-- `get_min` from `main.rs`: `matrix.iter().min()`, defaulting to `0` on an
empty buffer. -/
def get_min (matrix : List Int) : Int :=
  match matrix.min? with
  | some m => m
  | none => 0

/-- `get_max` from `main.rs`: `matrix.iter().max()`, defaulting to `0` on an
empty buffer. -/
def get_max (matrix : List Int) : Int :=
  match matrix.max? with
  | some m => m
  | none => 0

/-! ### Specification-level descriptions of the loop effects

`dxRowData`/`dxRowLog` describe the effect of one iteration of the boundary
loop of `compute_dx` on the buffer contents and on the write log;
`dxBorderData`/`dxBorderLog` iterate them over the rows. -/

def dxRowData (arr : List Nat) (cols row : Nat) (f : Nat → Int) : Nat → Int :=
  if 1 < cols then
    upd (upd (upd (upd f
      (row * (cols + 2) + (cols + 1)) (arr.getD (row * cols + cols - 1) 0 : Int))
      (row * (cols + 2)) (-(arr.getD (row * cols) 0 : Int)))
      (row * (cols + 2) + cols) (arr.getD (row * cols + cols - 2) 0 : Int))
      (row * (cols + 2) + 1) (-(arr.getD (row * cols + 1) 0 : Int))
  else
    upd (upd f
      (row * (cols + 2) + (cols + 1)) (arr.getD (row * cols + cols - 1) 0 : Int))
      (row * (cols + 2)) (-(arr.getD (row * cols) 0 : Int))
def dxRowLog (cols row : Nat) : List Nat :=
  if 1 < cols then
    [row * (cols + 2) + (cols + 1), row * (cols + 2),
     row * (cols + 2) + cols, row * (cols + 2) + 1]
  else
    [row * (cols + 2) + (cols + 1), row * (cols + 2)]
def dxBorderData (arr : List Nat) (cols row n : Nat) (f : Nat → Int) : Nat → Int :=
  match n with
  | 0 => f
  | Nat.succ m => dxBorderData arr cols (row + 1) m (dxRowData arr cols row f)
def dxBorderLog (cols row n : Nat) : List Nat :=
  match n with
  | 0 => []
  | Nat.succ m => dxRowLog cols row ++ dxBorderLog cols (row + 1) m

def dxInnerRowData (arr : List Nat) (cols row col n : Nat) (f : Nat → Int) :
    Nat → Int :=
  match n with
  | 0 => f
  | Nat.succ m => dxInnerRowData arr cols row (col + 1) m
      (upd f (row * (cols + 2) + 2 + col)
        ((arr.getD (row * cols + col) 0 : Int) -
          (arr.getD (row * cols + col + 2) 0 : Int)))

def dxInnerRowLog (cols row col n : Nat) : List Nat :=
  match n with
  | 0 => []
  | Nat.succ m => (row * (cols + 2) + 2 + col) :: dxInnerRowLog cols row (col + 1) m

def dxInnerData (arr : List Nat) (cols row n : Nat) (f : Nat → Int) : Nat → Int :=
  match n with
  | 0 => f
  | Nat.succ m => dxInnerData arr cols (row + 1) m
      (dxInnerRowData arr cols row 0 (cols - 2) f)

def dxInnerLog (cols row n : Nat) : List Nat :=
  match n with
  | 0 => []
  | Nat.succ m => dxInnerRowLog cols row 0 (cols - 2) ++ dxInnerLog cols (row + 1) m


def dxData (arr : List Nat) (rows cols : Nat) : Nat → Int :=
  if 2 < cols then
    dxInnerData arr cols 0 rows (dxBorderData arr cols 0 rows (fun _ => 0))
  else
    dxBorderData arr cols 0 rows (fun _ => 0)

def dxLog (rows cols : Nat) : List Nat :=
  dxBorderLog cols 0 rows ++ (if 2 < cols then dxInnerLog cols 0 rows else [])


def dyColData (arr : List Nat) (rows cols col : Nat) (f : Nat → Int) : Nat → Int :=
  if 1 < rows then
    upd (upd (upd (upd f
      (cols * (rows + 2) - col - 1) (arr.getD (cols * rows - col - 1) 0 : Int))
      col (-(arr.getD col 0 : Int)))
      (cols * (rows + 1) - col - 1) (arr.getD (cols * (rows - 1) - col - 1) 0 : Int))
      (cols + col) (-(arr.getD (cols + col) 0 : Int))
  else
    upd (upd f
      (cols * (rows + 2) - col - 1) (arr.getD (cols * rows - col - 1) 0 : Int))
      col (-(arr.getD col 0 : Int))

def dyColLog (rows cols col : Nat) : List Nat :=
  if 1 < rows then
    [cols * (rows + 2) - col - 1, col, cols * (rows + 1) - col - 1, cols + col]
  else
    [cols * (rows + 2) - col - 1, col]

def dyBorderData (arr : List Nat) (rows cols col n : Nat) (f : Nat → Int) :
    Nat → Int :=
  match n with
  | 0 => f
  | Nat.succ m => dyBorderData arr rows cols (col + 1) m
      (dyColData arr rows cols col f)

def dyBorderLog (rows cols col n : Nat) : List Nat :=
  match n with
  | 0 => []
  | Nat.succ m => dyColLog rows cols col ++ dyBorderLog rows cols (col + 1) m

def dyInnerRowData (arr : List Nat) (cols row col n : Nat) (f : Nat → Int) :
    Nat → Int :=
  match n with
  | 0 => f
  | Nat.succ m => dyInnerRowData arr cols row (col + 1) m
      (upd f ((row + 2) * cols + col)
        ((arr.getD (row * cols + col) 0 : Int) -
          (arr.getD ((row + 2) * cols + col) 0 : Int)))

def dyInnerRowLog (cols row col n : Nat) : List Nat :=
  match n with
  | 0 => []
  | Nat.succ m => ((row + 2) * cols + col) :: dyInnerRowLog cols row (col + 1) m

def dyInnerData (arr : List Nat) (cols row n : Nat) (f : Nat → Int) : Nat → Int :=
  match n with
  | 0 => f
  | Nat.succ m => dyInnerData arr cols (row + 1) m
      (dyInnerRowData arr cols row 0 cols f)

def dyInnerLog (cols row n : Nat) : List Nat :=
  match n with
  | 0 => []
  | Nat.succ m => dyInnerRowLog cols row 0 cols ++ dyInnerLog cols (row + 1) m

def dyData (arr : List Nat) (rows cols : Nat) : Nat → Int :=
  if 2 < rows then
    dyInnerData arr cols 0 (rows - 2)
      (dyBorderData arr rows cols 0 cols (fun _ => 0))
  else
    dyBorderData arr rows cols 0 cols (fun _ => 0)

def dyLog (rows cols : Nat) : List Nat :=
  dyBorderLog rows cols 0 cols ++
    (if 2 < rows then dyInnerLog cols 0 (rows - 2) else [])


/-! ### Basic lemmas about the primitive operations -/

lemma wr_eq {L : Nat} {f : Nat → Int} {lg : List Nat} {i : Nat} (h : i < L)
    (v : Int) :
    wr ⟨L, f, lg⟩ i v = some ⟨L, upd f i v, lg ++ [i]⟩ := by
  simp [wr, h]

lemma rd_eq {arr : List Nat} {i : Nat} (h : i < arr.length) :
    rd arr i = some (arr.getD i 0) := by
  simp [rd, h]

lemma sub?_eq {a c : Nat} (h : c ≤ a) : sub? a c = some (a - c) := by
  simp [sub?, h]

lemma getD_lt_of_u8 {arr : List Nat} (hu8 : ∀ x ∈ arr, x < 256) {i : Nat}
    (h : i < arr.length) : arr.getD i 0 < 256 := by
  rw [List.getD_eq_getElem arr 0 h]
  exact hu8 _ (List.getElem_mem h)

lemma i16chk_neg {n : Nat} (h : n < 256) :
    i16chk ((-1) * (n : Int)) = some (-(n : Int)) := by
  have e : (-1) * (n : Int) = -(n : Int) := by ring
  rw [i16chk, e, if_pos]
  constructor <;> omega

lemma i16chk_sub {a c : Nat} (ha : a < 256) (hc : c < 256) :
    i16chk ((a : Int) - (c : Int)) = some ((a : Int) - (c : Int)) := by
  rw [i16chk, if_pos]
  constructor <;> omega

lemma upd_self (f : Nat → Int) (i : Nat) (v : Int) : upd f i v i = v := by
  simp [upd]

lemma upd_other (f : Nat → Int) {i j : Nat} (h : j ≠ i) (v : Int) :
    upd f i v j = f j := by
  simp [upd, h]

/-- Two cells at offsets below `n` inside distinct rows of row-stride `n`
have distinct flat indices. -/
lemma slot_ne {n r s o p : Nat} (ho : o < n) (hp : p < n) (hrs : r ≠ s) :
    r * n + o ≠ s * n + p := by
  intro he
  apply hrs
  have hr : (r * n + o) / n = r := by
    rw [Nat.mul_comm r n, Nat.mul_add_div (by omega), Nat.div_eq_of_lt ho]
    omega
  have hs : (s * n + p) / n = s := by
    rw [Nat.mul_comm s n, Nat.mul_add_div (by omega), Nat.div_eq_of_lt hp]
    omega
  rw [← hr, he, hs]

/-! ### Characterization of the border loop of `compute_dx`

`dxRowData` and `dxRowLog` describe the effect of one iteration of the
boundary loop on the buffer contents and on the write log; the loop-level
`dxBorderData`/`dxBorderLog` iterate them. -/



lemma dxSetLast_eq {arr : List Nat} {cols row : Nat} {L : Nat} {f : Nat → Int}
    {lg : List Nat}
    (hc : 1 ≤ cols) (ha : row * cols + cols ≤ arr.length)
    (hb : row * (cols + 2) + (cols + 2) ≤ L) :
    dxSetLast arr cols row ⟨L, f, lg⟩ =
      some ⟨L,
        upd f (row * (cols + 2) + (cols + 1))
          (arr.getD (row * cols + cols - 1) 0 : Int),
        lg ++ [row * (cols + 2) + (cols + 1)]⟩ := by
  have h1 : (1 : Nat) ≤ row * cols + cols := by omega
  have h2 : row * cols + cols - 1 < arr.length := by omega
  have h3 : (1 : Nat) ≤ row * (cols + 2) + (cols + 2) := by omega
  have h4 : row * (cols + 2) + (cols + 2) - 1 = row * (cols + 2) + (cols + 1) := by
    omega
  have h5 : row * (cols + 2) + (cols + 1) < L := by omega
  rw [dxSetLast, sub?_eq h1, Option.some_bind, rd_eq h2, Option.some_bind,
    sub?_eq h3, Option.some_bind, h4, wr_eq h5]

lemma dxSetFirst_eq {arr : List Nat} {cols row : Nat} {L : Nat} {f : Nat → Int}
    {lg : List Nat}
    (hc : 1 ≤ cols) (ha : row * cols + cols ≤ arr.length)
    (hu8 : ∀ x ∈ arr, x < 256)
    (hb : row * (cols + 2) + (cols + 2) ≤ L) :
    dxSetFirst arr cols row ⟨L, f, lg⟩ =
      some ⟨L,
        upd f (row * (cols + 2)) (-(arr.getD (row * cols) 0 : Int)),
        lg ++ [row * (cols + 2)]⟩ := by
  have h1 : row * cols < arr.length := by omega
  have h2 : arr.getD (row * cols) 0 < 256 := getD_lt_of_u8 hu8 h1
  have h3 : row * (cols + 2) < L := by omega
  rw [dxSetFirst, rd_eq h1, Option.some_bind, i16chk_neg h2, Option.some_bind,
    wr_eq h3]

lemma dxSetLast2_eq {arr : List Nat} {cols row : Nat} {L : Nat} {f : Nat → Int}
    {lg : List Nat}
    (hc : 2 ≤ cols) (ha : row * cols + cols ≤ arr.length)
    (hb : row * (cols + 2) + (cols + 2) ≤ L) :
    dxSetLast2 arr cols row ⟨L, f, lg⟩ =
      some ⟨L,
        upd f (row * (cols + 2) + cols)
          (arr.getD (row * cols + cols - 2) 0 : Int),
        lg ++ [row * (cols + 2) + cols]⟩ := by
  have h1 : (2 : Nat) ≤ row * cols + cols := by omega
  have h2 : row * cols + cols - 2 < arr.length := by omega
  have h3 : (2 : Nat) ≤ row * (cols + 2) + (cols + 2) := by omega
  have h4 : row * (cols + 2) + (cols + 2) - 2 = row * (cols + 2) + cols := by
    omega
  have h5 : row * (cols + 2) + cols < L := by omega
  rw [dxSetLast2, sub?_eq h1, Option.some_bind, rd_eq h2, Option.some_bind,
    sub?_eq h3, Option.some_bind, h4, wr_eq h5]

lemma dxSetFirst2_eq {arr : List Nat} {cols row : Nat} {L : Nat} {f : Nat → Int}
    {lg : List Nat}
    (hc : 2 ≤ cols) (ha : row * cols + cols ≤ arr.length)
    (hu8 : ∀ x ∈ arr, x < 256)
    (hb : row * (cols + 2) + (cols + 2) ≤ L) :
    dxSetFirst2 arr cols row ⟨L, f, lg⟩ =
      some ⟨L,
        upd f (row * (cols + 2) + 1) (-(arr.getD (row * cols + 1) 0 : Int)),
        lg ++ [row * (cols + 2) + 1]⟩ := by
  have h1 : row * cols + 1 < arr.length := by omega
  have h2 : arr.getD (row * cols + 1) 0 < 256 := getD_lt_of_u8 hu8 h1
  have h3 : row * (cols + 2) + 1 < L := by omega
  rw [dxSetFirst2, rd_eq h1, Option.some_bind, i16chk_neg h2, Option.some_bind,
    wr_eq h3]

lemma dxBorderRow_eq {arr : List Nat} {cols row : Nat} {L : Nat} {f : Nat → Int}
    {lg : List Nat}
    (hc : 1 ≤ cols) (ha : row * cols + cols ≤ arr.length)
    (hu8 : ∀ x ∈ arr, x < 256)
    (hb : row * (cols + 2) + (cols + 2) ≤ L) :
    dxBorderRow arr cols row ⟨L, f, lg⟩ =
      some ⟨L, dxRowData arr cols row f, lg ++ dxRowLog cols row⟩ := by
  by_cases h2 : 1 < cols
  · rw [dxBorderRow, dxSetLast_eq hc ha hb, Option.some_bind,
      dxSetFirst_eq hc ha hu8 hb, Option.some_bind, if_pos h2,
      dxSetLast2_eq h2 ha hb, Option.some_bind, dxSetFirst2_eq h2 ha hu8 hb,
      dxRowData, dxRowLog, if_pos h2, if_pos h2]
    simp
  · rw [dxBorderRow, dxSetLast_eq hc ha hb, Option.some_bind,
      dxSetFirst_eq hc ha hu8 hb, Option.some_bind, if_neg h2,
      dxRowData, dxRowLog, if_neg h2, if_neg h2]
    simp



lemma dxBorderLoop_eq {arr : List Nat} {cols : Nat} :
    ∀ (n row : Nat) (L : Nat) (f : Nat → Int) (lg : List Nat), 1 ≤ cols →
    (row + n) * cols ≤ arr.length → (∀ x ∈ arr, x < 256) →
    (row + n) * (cols + 2) ≤ L →
    dxBorderLoop arr cols row n ⟨L, f, lg⟩ =
      some ⟨L, dxBorderData arr cols row n f, lg ++ dxBorderLog cols row n⟩ := by
  intro n
  induction n with
  | zero =>
      intro row L f lg _ _ _ _
      simp [dxBorderLoop, dxBorderData, dxBorderLog]
  | succ m ih =>
      intro row L f lg hc ha hu8 hb
      have hrow1 : row + 1 ≤ row + (m + 1) := by omega
      have ha1 : row * cols + cols ≤ arr.length := by
        calc row * cols + cols = (row + 1) * cols := by ring
        _ ≤ (row + (m + 1)) * cols := Nat.mul_le_mul_right cols hrow1
        _ ≤ arr.length := ha
      have hb1 : row * (cols + 2) + (cols + 2) ≤ L := by
        calc row * (cols + 2) + (cols + 2) = (row + 1) * (cols + 2) := by ring
        _ ≤ (row + (m + 1)) * (cols + 2) := Nat.mul_le_mul_right (cols + 2) hrow1
        _ ≤ L := hb
      have ha2 : (row + 1 + m) * cols ≤ arr.length := by
        have e : row + 1 + m = row + (m + 1) := by omega
        rw [e]; exact ha
      have hb2 : (row + 1 + m) * (cols + 2) ≤ L := by
        have e : row + 1 + m = row + (m + 1) := by omega
        rw [e]; exact hb
      rw [dxBorderLoop, dxBorderRow_eq hc ha1 hu8 hb1, Option.some_bind,
        ih (row + 1) L (dxRowData arr cols row f) (lg ++ dxRowLog cols row)
          hc ha2 hu8 hb2]
      simp [dxBorderData, dxBorderLog]

/-! ### Pointwise facts about the border-loop effect of `compute_dx` -/

lemma mem_dxRowLog {cols row j : Nat} (h : j ∈ dxRowLog cols row) :
    ∃ o, o < cols + 2 ∧ j = row * (cols + 2) + o := by
  rw [dxRowLog] at h
  by_cases h2 : 1 < cols
  · rw [if_pos h2] at h
    simp only [List.mem_cons, List.mem_singleton, List.not_mem_nil, or_false] at h
    rcases h with h | h | h | h
    · exact ⟨cols + 1, by omega, h⟩
    · exact ⟨0, by omega, by omega⟩
    · exact ⟨cols, by omega, h⟩
    · exact ⟨1, by omega, h⟩
  · rw [if_neg h2] at h
    simp only [List.mem_cons, List.mem_singleton, List.not_mem_nil, or_false] at h
    rcases h with h | h
    · exact ⟨cols + 1, by omega, h⟩
    · exact ⟨0, by omega, by omega⟩

lemma dxRowLog_disjoint {cols row s j : Nat} (h : j ∈ dxRowLog cols row)
    (hs : row ≠ s) : j ∉ dxRowLog cols s := by
  intro hj
  obtain ⟨o, ho, he⟩ := mem_dxRowLog h
  obtain ⟨p, hp, hf⟩ := mem_dxRowLog hj
  exact slot_ne ho hp hs (by rw [← he, ← hf])

lemma dxRowData_frame {arr : List Nat} {cols row : Nat} {f : Nat → Int}
    {j : Nat} (h : j ∉ dxRowLog cols row) :
    dxRowData arr cols row f j = f j := by
  rw [dxRowLog] at h
  rw [dxRowData]
  by_cases h2 : 1 < cols
  · rw [if_pos h2] at h ⊢
    simp only [List.mem_cons, List.mem_singleton, not_or] at h
    obtain ⟨hA, hB, hC, hD, -⟩ := h
    rw [upd_other _ hD, upd_other _ hC, upd_other _ hB, upd_other _ hA]
  · rw [if_neg h2] at h ⊢
    simp only [List.mem_cons, List.mem_singleton, not_or] at h
    obtain ⟨hA, hB, -⟩ := h
    rw [upd_other _ hB, upd_other _ hA]

lemma dxRowData_last {arr : List Nat} {cols row : Nat} (f : Nat → Int)
    (hc : 1 ≤ cols) :
    dxRowData arr cols row f (row * (cols + 2) + (cols + 1)) =
      (arr.getD (row * cols + cols - 1) 0 : Int) := by
  rw [dxRowData]
  by_cases h2 : 1 < cols
  · rw [if_pos h2, upd_other _ (by omega), upd_other _ (by omega),
      upd_other _ (by omega), upd_self]
  · rw [if_neg h2, upd_other _ (by omega), upd_self]

lemma dxRowData_first {arr : List Nat} {cols row : Nat} (f : Nat → Int)
    (hc : 1 ≤ cols) :
    dxRowData arr cols row f (row * (cols + 2)) =
      -(arr.getD (row * cols) 0 : Int) := by
  rw [dxRowData]
  by_cases h2 : 1 < cols
  · rw [if_pos h2, upd_other _ (by omega), upd_other _ (by omega), upd_self]
  · rw [if_neg h2, upd_self]

lemma dxRowData_last2 {arr : List Nat} {cols row : Nat} (f : Nat → Int)
    (h2 : 1 < cols) :
    dxRowData arr cols row f (row * (cols + 2) + cols) =
      (arr.getD (row * cols + cols - 2) 0 : Int) := by
  rw [dxRowData, if_pos h2, upd_other _ (by omega), upd_self]

lemma dxRowData_first2 {arr : List Nat} {cols row : Nat} (f : Nat → Int)
    (h2 : 1 < cols) :
    dxRowData arr cols row f (row * (cols + 2) + 1) =
      -(arr.getD (row * cols + 1) 0 : Int) := by
  rw [dxRowData, if_pos h2, upd_self]

lemma dxBorderData_frame {arr : List Nat} {cols : Nat} :
    ∀ (n row : Nat) (f : Nat → Int) (j : Nat),
    (∀ r, row ≤ r → r < row + n → j ∉ dxRowLog cols r) →
    dxBorderData arr cols row n f j = f j := by
  intro n
  induction n with
  | zero => intro row f j _; rw [dxBorderData]
  | succ m ih =>
      intro row f j h
      rw [dxBorderData, ih (row + 1) _ j (fun r h1 h2 => h r (by omega) (by omega)),
        dxRowData_frame (h row (by omega) (by omega))]

lemma dxBorderData_values {arr : List Nat} {cols : Nat} :
    ∀ (n row : Nat) (f : Nat → Int) (r : Nat), 1 ≤ cols →
    row ≤ r → r < row + n →
    dxBorderData arr cols row n f (r * (cols + 2) + (cols + 1)) =
      (arr.getD (r * cols + cols - 1) 0 : Int) ∧
    dxBorderData arr cols row n f (r * (cols + 2)) =
      -(arr.getD (r * cols) 0 : Int) ∧
    (1 < cols →
      dxBorderData arr cols row n f (r * (cols + 2) + cols) =
        (arr.getD (r * cols + cols - 2) 0 : Int) ∧
      dxBorderData arr cols row n f (r * (cols + 2) + 1) =
        -(arr.getD (r * cols + 1) 0 : Int)) := by
  intro n
  induction n with
  | zero => intro row f r _ h1 h2; omega
  | succ m ih =>
      intro row f r hc h1 h2
      rw [dxBorderData]
      by_cases hr : r = row
      · subst hr
        have hfr : ∀ j, j ∈ dxRowLog cols r →
            dxBorderData arr cols (r + 1) m (dxRowData arr cols r f) j =
              dxRowData arr cols r f j := by
          intro j hj
          exact dxBorderData_frame m (r + 1) _ j
            (fun s hs1 hs2 => dxRowLog_disjoint hj (by omega))
        refine ⟨?_, ?_, fun h2c => ⟨?_, ?_⟩⟩
        · rw [hfr _ ?mem, dxRowData_last f hc]
          case mem =>
            rw [dxRowLog]
            by_cases h2c : 1 < cols
            · rw [if_pos h2c]; simp
            · rw [if_neg h2c]; simp
        · rw [hfr _ ?mem, dxRowData_first f hc]
          case mem =>
            rw [dxRowLog]
            by_cases h2c : 1 < cols
            · rw [if_pos h2c]; simp
            · rw [if_neg h2c]; simp
        · rw [hfr _ ?mem, dxRowData_last2 f h2c]
          case mem => rw [dxRowLog, if_pos h2c]; simp
        · rw [hfr _ ?mem, dxRowData_first2 f h2c]
          case mem => rw [dxRowLog, if_pos h2c]; simp
      · exact ih (row + 1) _ r hc (by omega) (by omega)

lemma getD_u8_any {arr : List Nat} (hu8 : ∀ x ∈ arr, x < 256) (i : Nat) :
    arr.getD i 0 < 256 := by
  by_cases h : i < arr.length
  · exact getD_lt_of_u8 hu8 h
  · rw [List.getD_eq_default arr 0 (by omega)]; omega

lemma dxRowData_bounds {arr : List Nat} {cols row : Nat} {f : Nat → Int}
    (hu8 : ∀ x ∈ arr, x < 256)
    (hf : ∀ j, -255 ≤ f j ∧ f j ≤ 255) :
    ∀ j, -255 ≤ dxRowData arr cols row f j ∧ dxRowData arr cols row f j ≤ 255 := by
  intro j
  have g1 := getD_u8_any hu8 (row * cols + cols - 1)
  have g2 := getD_u8_any hu8 (row * cols)
  have g3 := getD_u8_any hu8 (row * cols + cols - 2)
  have g4 := getD_u8_any hu8 (row * cols + 1)
  rw [dxRowData]
  by_cases h2 : 1 < cols
  · rw [if_pos h2]
    simp only [upd]
    split_ifs
    · constructor <;> omega
    · constructor <;> omega
    · constructor <;> omega
    · constructor <;> omega
    · exact hf j
  · rw [if_neg h2]
    simp only [upd]
    split_ifs
    · constructor <;> omega
    · constructor <;> omega
    · exact hf j

lemma dxBorderData_bounds {arr : List Nat} {cols : Nat}
    (hu8 : ∀ x ∈ arr, x < 256) :
    ∀ (n row : Nat) (f : Nat → Int),
    (∀ j, -255 ≤ f j ∧ f j ≤ 255) →
    ∀ j, -255 ≤ dxBorderData arr cols row n f j ∧
      dxBorderData arr cols row n f j ≤ 255 := by
  intro n
  induction n with
  | zero => intro row f hf j; rw [dxBorderData]; exact hf j
  | succ m ih =>
      intro row f hf j
      rw [dxBorderData]
      exact ih (row + 1) _ (dxRowData_bounds hu8 hf) j

/-! ### Characterization of the interior loop of `compute_dx` -/

lemma dxInnerCell_eq {arr : List Nat} {cols row col : Nat} {L : Nat}
    {f : Nat → Int} {lg : List Nat}
    (ha : row * cols + col + 2 < arr.length)
    (hu8 : ∀ x ∈ arr, x < 256)
    (hb : row * (cols + 2) + 2 + col < L) :
    dxInnerCell arr cols row col ⟨L, f, lg⟩ =
      some ⟨L,
        upd f (row * (cols + 2) + 2 + col)
          ((arr.getD (row * cols + col) 0 : Int) -
            (arr.getD (row * cols + col + 2) 0 : Int)),
        lg ++ [row * (cols + 2) + 2 + col]⟩ := by
  have h1 : row * cols + col < arr.length := by omega
  rw [dxInnerCell, rd_eq h1, Option.some_bind, rd_eq ha, Option.some_bind,
    i16chk_sub (getD_lt_of_u8 hu8 h1) (getD_lt_of_u8 hu8 ha), Option.some_bind,
    wr_eq hb]

lemma dxInnerRow_eq {arr : List Nat} {cols row : Nat} :
    ∀ (n col : Nat) (L : Nat) (f : Nat → Int) (lg : List Nat),
    col + n ≤ cols - 2 → 2 < cols →
    (row + 1) * cols ≤ arr.length → (∀ x ∈ arr, x < 256) →
    (row + 1) * (cols + 2) ≤ L →
    dxInnerRow arr cols row col n ⟨L, f, lg⟩ =
      some ⟨L, dxInnerRowData arr cols row col n f,
        lg ++ dxInnerRowLog cols row col n⟩ := by
  intro n
  induction n with
  | zero =>
      intro col L f lg _ _ _ _ _
      simp [dxInnerRow, dxInnerRowData, dxInnerRowLog]
  | succ m ih =>
      intro col L f lg hcn h2 ha hu8 hb
      have e1 : (row + 1) * cols = row * cols + cols := by ring
      have e2 : (row + 1) * (cols + 2) = row * (cols + 2) + (cols + 2) := by ring
      have ha1 : row * cols + col + 2 < arr.length := by omega
      have hb1 : row * (cols + 2) + 2 + col < L := by omega
      rw [dxInnerRow, dxInnerCell_eq ha1 hu8 hb1, Option.some_bind,
        ih (col + 1) L _ _ (by omega) h2 ha hu8 hb]
      simp [dxInnerRowData, dxInnerRowLog]

lemma dxInnerLoop_eq {arr : List Nat} {cols : Nat} :
    ∀ (n row : Nat) (L : Nat) (f : Nat → Int) (lg : List Nat), 2 < cols →
    (row + n) * cols ≤ arr.length → (∀ x ∈ arr, x < 256) →
    (row + n) * (cols + 2) ≤ L →
    dxInnerLoop arr cols row n ⟨L, f, lg⟩ =
      some ⟨L, dxInnerData arr cols row n f, lg ++ dxInnerLog cols row n⟩ := by
  intro n
  induction n with
  | zero =>
      intro row L f lg _ _ _ _
      simp [dxInnerLoop, dxInnerData, dxInnerLog]
  | succ m ih =>
      intro row L f lg h2 ha hu8 hb
      have hrow1 : row + 1 ≤ row + (m + 1) := by omega
      have ha1 : (row + 1) * cols ≤ arr.length :=
        le_trans (Nat.mul_le_mul_right cols hrow1) ha
      have hb1 : (row + 1) * (cols + 2) ≤ L :=
        le_trans (Nat.mul_le_mul_right (cols + 2) hrow1) hb
      have ha2 : (row + 1 + m) * cols ≤ arr.length := by
        have e : row + 1 + m = row + (m + 1) := by omega
        rw [e]; exact ha
      have hb2 : (row + 1 + m) * (cols + 2) ≤ L := by
        have e : row + 1 + m = row + (m + 1) := by omega
        rw [e]; exact hb
      rw [dxInnerLoop, dxInnerRow_eq (cols - 2) 0 L f lg (by omega) h2 ha1 hu8 hb1,
        Option.some_bind, ih (row + 1) L _ _ h2 ha2 hu8 hb2]
      simp [dxInnerData, dxInnerLog]

/-! ### Pointwise facts about the interior-loop effect of `compute_dx` -/

lemma mem_dxInnerRowLog {cols row : Nat} :
    ∀ {n col j : Nat}, j ∈ dxInnerRowLog cols row col n →
    ∃ c, col ≤ c ∧ c < col + n ∧ j = row * (cols + 2) + 2 + c := by
  intro n
  induction n with
  | zero => intro col j h; rw [dxInnerRowLog] at h; exact absurd h (List.not_mem_nil _)
  | succ m ih =>
      intro col j h
      rw [dxInnerRowLog, List.mem_cons] at h
      rcases h with h | h
      · exact ⟨col, by omega, by omega, h⟩
      · obtain ⟨c, hc1, hc2, hc3⟩ := ih h
        exact ⟨c, by omega, by omega, hc3⟩

lemma dxInnerRowData_frame {arr : List Nat} {cols row : Nat} :
    ∀ {n col : Nat} {f : Nat → Int} {j : Nat},
    j ∉ dxInnerRowLog cols row col n →
    dxInnerRowData arr cols row col n f j = f j := by
  intro n
  induction n with
  | zero => intro col f j _; rw [dxInnerRowData]
  | succ m ih =>
      intro col f j h
      rw [dxInnerRowLog, List.mem_cons] at h
      push_neg at h
      rw [dxInnerRowData, ih h.2, upd_other _ h.1]

lemma dxInnerRowData_value {arr : List Nat} {cols row : Nat} :
    ∀ (n col : Nat) (f : Nat → Int) (c : Nat), col ≤ c → c < col + n →
    dxInnerRowData arr cols row col n f (row * (cols + 2) + 2 + c) =
      (arr.getD (row * cols + c) 0 : Int) -
        (arr.getD (row * cols + c + 2) 0 : Int) := by
  intro n
  induction n with
  | zero => intro col f c h1 h2; omega
  | succ m ih =>
      intro col f c h1 h2
      rw [dxInnerRowData]
      by_cases hc : c = col
      · subst hc
        rw [dxInnerRowData_frame, upd_self]
        intro hmem
        obtain ⟨d, hd1, hd2, hd3⟩ := mem_dxInnerRowLog hmem
        omega
      · exact ih (col + 1) _ c (by omega) (by omega)

lemma mem_dxInnerLog {cols : Nat} :
    ∀ {n row j : Nat}, j ∈ dxInnerLog cols row n →
    ∃ r c, row ≤ r ∧ r < row + n ∧ c < cols - 2 ∧
      j = r * (cols + 2) + 2 + c := by
  intro n
  induction n with
  | zero => intro row j h; rw [dxInnerLog] at h; exact absurd h (List.not_mem_nil _)
  | succ m ih =>
      intro row j h
      rw [dxInnerLog, List.mem_append] at h
      rcases h with h | h
      · obtain ⟨c, hc1, hc2, hc3⟩ := mem_dxInnerRowLog h
        exact ⟨row, c, by omega, by omega, by omega, hc3⟩
      · obtain ⟨r, c, h1, h2, h3, h4⟩ := ih h
        exact ⟨r, c, by omega, by omega, h3, h4⟩

lemma dxInnerData_frame {arr : List Nat} {cols : Nat} :
    ∀ {n row : Nat} {f : Nat → Int} {j : Nat},
    j ∉ dxInnerLog cols row n →
    dxInnerData arr cols row n f j = f j := by
  intro n
  induction n with
  | zero => intro row f j _; rw [dxInnerData]
  | succ m ih =>
      intro row f j h
      rw [dxInnerLog, List.mem_append] at h
      push_neg at h
      rw [dxInnerData, ih h.2, dxInnerRowData_frame h.1]

lemma dxInnerData_value {arr : List Nat} {cols : Nat} :
    ∀ (n row : Nat) (f : Nat → Int) (r c : Nat), row ≤ r → r < row + n →
    c < cols - 2 →
    dxInnerData arr cols row n f (r * (cols + 2) + 2 + c) =
      (arr.getD (r * cols + c) 0 : Int) -
        (arr.getD (r * cols + c + 2) 0 : Int) := by
  intro n
  induction n with
  | zero => intro row f r c h1 h2 _; omega
  | succ m ih =>
      intro row f r c h1 h2 hc
      rw [dxInnerData]
      by_cases hr : r = row
      · subst hr
        rw [dxInnerData_frame, dxInnerRowData_value (cols - 2) 0 f c (by omega)
          (by omega)]
        intro hmem
        obtain ⟨s, d, hs1, hs2, hd, he⟩ := mem_dxInnerLog hmem
        have he2 : r * (cols + 2) + (2 + c) = s * (cols + 2) + (2 + d) := by omega
        exact slot_ne (show 2 + c < cols + 2 by omega)
          (show 2 + d < cols + 2 by omega) (show r ≠ s by omega) he2
      · exact ih (row + 1) _ r c (by omega) (by omega) hc

lemma dxInnerRowData_bounds {arr : List Nat} {cols row : Nat}
    (hu8 : ∀ x ∈ arr, x < 256) :
    ∀ (n col : Nat) (f : Nat → Int),
    (∀ j, -255 ≤ f j ∧ f j ≤ 255) →
    ∀ j, -255 ≤ dxInnerRowData arr cols row col n f j ∧
      dxInnerRowData arr cols row col n f j ≤ 255 := by
  intro n
  induction n with
  | zero => intro col f hf j; rw [dxInnerRowData]; exact hf j
  | succ m ih =>
      intro col f hf j
      rw [dxInnerRowData]
      refine ih (col + 1) _ (fun i => ?_) j
      have g1 := getD_u8_any hu8 (row * cols + col)
      have g2 := getD_u8_any hu8 (row * cols + col + 2)
      rw [upd]
      split_ifs
      · constructor <;> omega
      · exact hf i

lemma dxInnerData_bounds {arr : List Nat} {cols : Nat}
    (hu8 : ∀ x ∈ arr, x < 256) :
    ∀ (n row : Nat) (f : Nat → Int),
    (∀ j, -255 ≤ f j ∧ f j ≤ 255) →
    ∀ j, -255 ≤ dxInnerData arr cols row n f j ∧
      dxInnerData arr cols row n f j ≤ 255 := by
  intro n
  induction n with
  | zero => intro row f hf j; rw [dxInnerData]; exact hf j
  | succ m ih =>
      intro row f hf j
      rw [dxInnerData]
      exact ih (row + 1) _ (dxInnerRowData_bounds hu8 (cols - 2) 0 f hf) j

/-! ### Full characterization of `compute_dx` -/

lemma compute_dx_eq {arr : List Nat} {rows cols : Nat} (hc : 1 ≤ cols)
    (hlen : arr.length = rows * cols) (hu8 : ∀ x ∈ arr, x < 256) :
    compute_dx arr rows cols =
      some ⟨rows * (cols + 2), dxData arr rows cols, dxLog rows cols⟩ := by
  have hA : (0 + rows) * cols ≤ arr.length := by rw [Nat.zero_add, hlen]
  have hB : (0 + rows) * (cols + 2) ≤ rows * (cols + 2) := by rw [Nat.zero_add]
  rw [compute_dx, dxBorderLoop_eq rows 0 (rows * (cols + 2)) (fun _ => 0) []
    hc hA hu8 hB, Option.some_bind]
  by_cases h2 : 2 < cols
  · rw [if_pos h2, dxInnerLoop_eq rows 0 (rows * (cols + 2)) _ _ h2 hA hu8 hB,
      dxData, dxLog, if_pos h2, if_pos h2]
    simp
  · rw [if_neg h2, dxData, dxLog, if_neg h2, if_neg h2]
    simp

lemma dx_slot_not_inner {cols rows r o : Nat} (ho : o < cols + 2)
    (hint : ∀ d, d < cols - 2 → o ≠ 2 + d) :
    (r * (cols + 2) + o) ∉ dxInnerLog cols 0 rows := by
  intro hmem
  obtain ⟨s, d, _, _, hd, he⟩ := mem_dxInnerLog hmem
  by_cases hrs : r = s
  · subst hrs
    exact hint d hd (by omega)
  · have he2 : r * (cols + 2) + o = s * (cols + 2) + (2 + d) := by omega
    exact slot_ne ho (by omega) hrs he2

lemma dxData_last {arr : List Nat} {rows cols r : Nat} (hc : 1 ≤ cols)
    (hr : r < rows) :
    dxData arr rows cols (r * (cols + 2) + (cols + 1)) =
      (arr.getD (r * cols + cols - 1) 0 : Int) := by
  rw [dxData]
  by_cases h2 : 2 < cols
  · rw [if_pos h2,
      dxInnerData_frame (dx_slot_not_inner (by omega) (fun d hd => by omega))]
    exact (dxBorderData_values rows 0 _ r hc (by omega) (by omega)).1
  · rw [if_neg h2]
    exact (dxBorderData_values rows 0 _ r hc (by omega) (by omega)).1

lemma dxData_first {arr : List Nat} {rows cols r : Nat} (hc : 1 ≤ cols)
    (hr : r < rows) :
    dxData arr rows cols (r * (cols + 2)) = -(arr.getD (r * cols) 0 : Int) := by
  have e : r * (cols + 2) = r * (cols + 2) + 0 := by omega
  rw [dxData, e]
  by_cases h2 : 2 < cols
  · rw [if_pos h2,
      dxInnerData_frame (dx_slot_not_inner (by omega) (fun d hd => by omega))]
    have h3 := (@dxBorderData_values arr cols rows 0 (fun _ => 0) r hc
      (by omega) (by omega)).2.1
    rw [← e]
    exact h3
  · rw [if_neg h2, ← e]
    exact (dxBorderData_values rows 0 _ r hc (by omega) (by omega)).2.1

lemma dxData_last2 {arr : List Nat} {rows cols r : Nat} (h1 : 1 < cols)
    (hr : r < rows) :
    dxData arr rows cols (r * (cols + 2) + cols) =
      (arr.getD (r * cols + cols - 2) 0 : Int) := by
  rw [dxData]
  by_cases h2 : 2 < cols
  · rw [if_pos h2,
      dxInnerData_frame (dx_slot_not_inner (by omega) (fun d hd => by omega))]
    exact ((dxBorderData_values rows 0 _ r (by omega) (by omega)
      (by omega)).2.2 h1).1
  · rw [if_neg h2]
    exact ((dxBorderData_values rows 0 _ r (by omega) (by omega)
      (by omega)).2.2 h1).1

lemma dxData_first2 {arr : List Nat} {rows cols r : Nat} (h1 : 1 < cols)
    (hr : r < rows) :
    dxData arr rows cols (r * (cols + 2) + 1) =
      -(arr.getD (r * cols + 1) 0 : Int) := by
  rw [dxData]
  by_cases h2 : 2 < cols
  · rw [if_pos h2,
      dxInnerData_frame (dx_slot_not_inner (by omega) (fun d hd => by omega))]
    exact ((dxBorderData_values rows 0 _ r (by omega) (by omega)
      (by omega)).2.2 h1).2
  · rw [if_neg h2]
    exact ((dxBorderData_values rows 0 _ r (by omega) (by omega)
      (by omega)).2.2 h1).2

lemma dxData_inner {arr : List Nat} {rows cols r c : Nat} (h2 : 2 < cols)
    (hr : r < rows) (hcc : c < cols - 2) :
    dxData arr rows cols (r * (cols + 2) + 2 + c) =
      (arr.getD (r * cols + c) 0 : Int) -
        (arr.getD (r * cols + c + 2) 0 : Int) := by
  rw [dxData, if_pos h2]
  exact dxInnerData_value rows 0 _ r c (by omega) (by omega) hcc

lemma dxData_middle_one {arr : List Nat} {rows r : Nat} (hr : r < rows) :
    dxData arr rows 1 (r * 3 + 1) = 0 := by
  rw [dxData, if_neg (by omega)]
  rw [dxBorderData_frame]
  intro s _ _
  intro hmem
  rw [dxRowLog, if_neg (by omega)] at hmem
  simp only [List.mem_cons, List.mem_singleton, List.not_mem_nil, or_false] at hmem
  by_cases hrs : r = s
  · subst hrs; omega
  · rcases hmem with h | h
    · exact slot_ne (show 1 < 3 by omega) (show 1 + 1 < 3 by omega) hrs
        (by omega : r * 3 + 1 = s * 3 + (1 + 1))
    · exact slot_ne (show 1 < 3 by omega) (show 0 < 3 by omega) hrs
        (by omega : r * 3 + 1 = s * 3 + 0)

lemma dxData_bounds {arr : List Nat} {rows cols : Nat}
    (hu8 : ∀ x ∈ arr, x < 256) :
    ∀ j, -255 ≤ dxData arr rows cols j ∧ dxData arr rows cols j ≤ 255 := by
  intro j
  have h0 : ∀ i : Nat, -255 ≤ (0 : Int) ∧ (0 : Int) ≤ 255 := by
    intro i; constructor <;> omega
  rw [dxData]
  by_cases h2 : 2 < cols
  · rw [if_pos h2]
    exact dxInnerData_bounds hu8 rows 0 _
      (dxBorderData_bounds hu8 rows 0 _ (fun i => h0 i)) j
  · rw [if_neg h2]
    exact dxBorderData_bounds hu8 rows 0 _ (fun i => h0 i) j

lemma compute_dx_zero_cols {arr : List Nat} {rows : Nat} (hr : 1 ≤ rows) :
    compute_dx arr rows 0 = none := by
  cases rows with
  | zero => omega
  | succ m =>
      have hnone : sub? (0 * 0 + 0) 1 = none := by
        rw [sub?, if_neg]; omega
      rw [compute_dx, dxBorderLoop, dxBorderRow, dxSetLast, hnone]
      simp

/-! ### Characterization of the border loop of `compute_dy` -/

lemma dySetLast_eq {arr : List Nat} {rows cols col : Nat} {L : Nat}
    {f : Nat → Int} {lg : List Nat}
    (hcol : col < cols) (hr : 1 ≤ rows) (haa : cols * rows ≤ arr.length)
    (hb : cols * (rows + 2) ≤ L) :
    dySetLast arr rows cols col ⟨L, f, lg⟩ =
      some ⟨L,
        upd f (cols * (rows + 2) - col - 1)
          (arr.getD (cols * rows - col - 1) 0 : Int),
        lg ++ [cols * (rows + 2) - col - 1]⟩ := by
  have e1 : cols * (rows + 2) = cols * rows + 2 * cols := by ring
  have e3 : cols * 1 ≤ cols * rows := Nat.mul_le_mul_left cols hr
  rw [dySetLast, sub?_eq (show col ≤ cols * (rows + 2) by omega),
    Option.some_bind, sub?_eq (show 1 ≤ cols * (rows + 2) - col by omega),
    Option.some_bind, sub?_eq (show col ≤ cols * rows by omega),
    Option.some_bind, sub?_eq (show 1 ≤ cols * rows - col by omega),
    Option.some_bind, rd_eq (show cols * rows - col - 1 < arr.length by omega),
    Option.some_bind, wr_eq (show cols * (rows + 2) - col - 1 < L by omega)]

lemma dySetFirst_eq {arr : List Nat} {col : Nat} {L : Nat} {f : Nat → Int}
    {lg : List Nat}
    (ha : col < arr.length) (hu8 : ∀ x ∈ arr, x < 256) (hb : col < L) :
    dySetFirst arr col ⟨L, f, lg⟩ =
      some ⟨L, upd f col (-(arr.getD col 0 : Int)), lg ++ [col]⟩ := by
  rw [dySetFirst, rd_eq ha, Option.some_bind,
    i16chk_neg (getD_lt_of_u8 hu8 ha), Option.some_bind, wr_eq hb]

lemma dySetLast2_eq {arr : List Nat} {rows cols col : Nat} {L : Nat}
    {f : Nat → Int} {lg : List Nat}
    (h2 : 1 < rows) (hcol : col < cols) (haa : cols * rows ≤ arr.length)
    (hb : cols * (rows + 2) ≤ L) :
    dySetLast2 arr rows cols col ⟨L, f, lg⟩ =
      some ⟨L,
        upd f (cols * (rows + 1) - col - 1)
          (arr.getD (cols * (rows - 1) - col - 1) 0 : Int),
        lg ++ [cols * (rows + 1) - col - 1]⟩ := by
  have e1 : cols * (rows + 2) = cols * rows + 2 * cols := by ring
  have e2 : cols * (rows + 1) = cols * rows + cols := by ring
  have e4 : cols * 2 ≤ cols * rows := Nat.mul_le_mul_left cols h2
  have e5 : cols * (rows - 1) + cols = cols * rows := by
    have e : rows - 1 + 1 = rows := by omega
    calc cols * (rows - 1) + cols = cols * (rows - 1 + 1) := by ring
    _ = cols * rows := by rw [e]
  have e0 : rows + 2 - 1 = rows + 1 := by omega
  rw [dySetLast2, sub?_eq (show 1 ≤ rows + 2 by omega), Option.some_bind, e0,
    sub?_eq (show col ≤ cols * (rows + 1) by omega), Option.some_bind,
    sub?_eq (show 1 ≤ cols * (rows + 1) - col by omega), Option.some_bind,
    sub?_eq (show 1 ≤ rows by omega), Option.some_bind,
    sub?_eq (show col ≤ cols * (rows - 1) by omega), Option.some_bind,
    sub?_eq (show 1 ≤ cols * (rows - 1) - col by omega), Option.some_bind,
    rd_eq (show cols * (rows - 1) - col - 1 < arr.length by omega),
    Option.some_bind, wr_eq (show cols * (rows + 1) - col - 1 < L by omega)]

lemma dySetFirst2_eq {arr : List Nat} {cols col : Nat} {L : Nat} {f : Nat → Int}
    {lg : List Nat}
    (ha : cols + col < arr.length) (hu8 : ∀ x ∈ arr, x < 256)
    (hb : cols + col < L) :
    dySetFirst2 arr cols col ⟨L, f, lg⟩ =
      some ⟨L, upd f (cols + col) (-(arr.getD (cols + col) 0 : Int)),
        lg ++ [cols + col]⟩ := by
  rw [dySetFirst2, rd_eq ha, Option.some_bind,
    i16chk_neg (getD_lt_of_u8 hu8 ha), Option.some_bind, wr_eq hb]

lemma dyBorderCol_eq {arr : List Nat} {rows cols col : Nat} {L : Nat}
    {f : Nat → Int} {lg : List Nat}
    (hcol : col < cols) (hr : 1 ≤ rows) (haa : cols * rows ≤ arr.length)
    (hu8 : ∀ x ∈ arr, x < 256) (hb : cols * (rows + 2) ≤ L) :
    dyBorderCol arr rows cols col ⟨L, f, lg⟩ =
      some ⟨L, dyColData arr rows cols col f, lg ++ dyColLog rows cols col⟩ := by
  have e1 : cols * (rows + 2) = cols * rows + 2 * cols := by ring
  have e3 : cols * 1 ≤ cols * rows := Nat.mul_le_mul_left cols hr
  by_cases h2 : 1 < rows
  · have e4 : cols * 2 ≤ cols * rows := Nat.mul_le_mul_left cols h2
    rw [dyBorderCol, dySetLast_eq hcol hr haa hb, Option.some_bind,
      dySetFirst_eq (show col < arr.length by omega) hu8 (show col < L by omega),
      Option.some_bind, if_pos h2, dySetLast2_eq h2 hcol haa hb,
      Option.some_bind,
      dySetFirst2_eq (show cols + col < arr.length by omega) hu8
        (show cols + col < L by omega),
      dyColData, dyColLog, if_pos h2, if_pos h2]
    simp
  · rw [dyBorderCol, dySetLast_eq hcol hr haa hb, Option.some_bind,
      dySetFirst_eq (show col < arr.length by omega) hu8 (show col < L by omega),
      Option.some_bind, if_neg h2, dyColData, dyColLog, if_neg h2, if_neg h2]
    simp

lemma dyBorderLoop_eq {arr : List Nat} {rows cols : Nat} :
    ∀ (n col : Nat) (L : Nat) (f : Nat → Int) (lg : List Nat),
    col + n ≤ cols → 1 ≤ rows → cols * rows ≤ arr.length →
    (∀ x ∈ arr, x < 256) → cols * (rows + 2) ≤ L →
    dyBorderLoop arr rows cols col n ⟨L, f, lg⟩ =
      some ⟨L, dyBorderData arr rows cols col n f,
        lg ++ dyBorderLog rows cols col n⟩ := by
  intro n
  induction n with
  | zero =>
      intro col L f lg _ _ _ _ _
      simp [dyBorderLoop, dyBorderData, dyBorderLog]
  | succ m ih =>
      intro col L f lg hcn hr haa hu8 hb
      rw [dyBorderLoop, dyBorderCol_eq (by omega) hr haa hu8 hb,
        Option.some_bind, ih (col + 1) L _ _ (by omega) hr haa hu8 hb]
      simp [dyBorderData, dyBorderLog]

/-! ### Pointwise facts about the border-loop effect of `compute_dy` -/

lemma mem_dyColLog {rows cols col j : Nat} (h : j ∈ dyColLog rows cols col) :
    j = cols * (rows + 2) - col - 1 ∨ j = col ∨
      (1 < rows ∧ (j = cols * (rows + 1) - col - 1 ∨ j = cols + col)) := by
  rw [dyColLog] at h
  by_cases h2 : 1 < rows
  · rw [if_pos h2] at h
    simp only [List.mem_cons, List.mem_singleton, List.not_mem_nil, or_false] at h
    tauto
  · rw [if_neg h2] at h
    simp only [List.mem_cons, List.mem_singleton, List.not_mem_nil, or_false] at h
    tauto

lemma dyColLog_disjoint {rows cols col col2 j : Nat} (hc1 : col < cols)
    (hc2 : col2 < cols) (hr : 1 ≤ rows) (hne : col ≠ col2)
    (hj : j ∈ dyColLog rows cols col) : j ∉ dyColLog rows cols col2 := by
  intro hj2
  have m1 := mem_dyColLog hj
  have m2 := mem_dyColLog hj2
  have e1 : cols * (rows + 2) = cols * rows + 2 * cols := by ring
  have e2 : cols * (rows + 1) = cols * rows + cols := by ring
  have e3 : cols * 1 ≤ cols * rows := Nat.mul_le_mul_left cols hr
  rcases m1 with h | h | ⟨hrr, h | h⟩ <;>
    rcases m2 with g | g | ⟨hrr2, g | g⟩ <;>
    (try have e4 : cols * 2 ≤ cols * rows := Nat.mul_le_mul_left cols ‹1 < rows›) <;>
    omega

lemma dyColData_frame {arr : List Nat} {rows cols col : Nat} {f : Nat → Int}
    {j : Nat} (h : j ∉ dyColLog rows cols col) :
    dyColData arr rows cols col f j = f j := by
  rw [dyColLog] at h
  rw [dyColData]
  by_cases h2 : 1 < rows
  · rw [if_pos h2] at h ⊢
    simp only [List.mem_cons, List.mem_singleton, not_or] at h
    obtain ⟨hA, hB, hC, hD, -⟩ := h
    rw [upd_other _ hD, upd_other _ hC, upd_other _ hB, upd_other _ hA]
  · rw [if_neg h2] at h ⊢
    simp only [List.mem_cons, List.mem_singleton, not_or] at h
    obtain ⟨hA, hB, -⟩ := h
    rw [upd_other _ hB, upd_other _ hA]

lemma dyColData_last {arr : List Nat} {rows cols col : Nat} (f : Nat → Int)
    (hcol : col < cols) (hr : 1 ≤ rows) :
    dyColData arr rows cols col f (cols * (rows + 2) - col - 1) =
      (arr.getD (cols * rows - col - 1) 0 : Int) := by
  have e1 : cols * (rows + 2) = cols * rows + 2 * cols := by ring
  have e2 : cols * (rows + 1) = cols * rows + cols := by ring
  have e3 : cols * 1 ≤ cols * rows := Nat.mul_le_mul_left cols hr
  rw [dyColData]
  by_cases h2 : 1 < rows
  · have e4 : cols * 2 ≤ cols * rows := Nat.mul_le_mul_left cols h2
    rw [if_pos h2, upd_other _ (by omega), upd_other _ (by omega),
      upd_other _ (by omega), upd_self]
  · rw [if_neg h2, upd_other _ (by omega), upd_self]

lemma dyColData_first {arr : List Nat} {rows cols col : Nat} (f : Nat → Int)
    (hcol : col < cols) (hr : 1 ≤ rows) :
    dyColData arr rows cols col f col = -(arr.getD col 0 : Int) := by
  have e1 : cols * (rows + 2) = cols * rows + 2 * cols := by ring
  have e2 : cols * (rows + 1) = cols * rows + cols := by ring
  have e3 : cols * 1 ≤ cols * rows := Nat.mul_le_mul_left cols hr
  rw [dyColData]
  by_cases h2 : 1 < rows
  · have e4 : cols * 2 ≤ cols * rows := Nat.mul_le_mul_left cols h2
    rw [if_pos h2, upd_other _ (by omega), upd_other _ (by omega), upd_self]
  · rw [if_neg h2, upd_self]

lemma dyColData_last2 {arr : List Nat} {rows cols col : Nat} (f : Nat → Int)
    (hcol : col < cols) (h2 : 1 < rows) :
    dyColData arr rows cols col f (cols * (rows + 1) - col - 1) =
      (arr.getD (cols * (rows - 1) - col - 1) 0 : Int) := by
  have e2 : cols * (rows + 1) = cols * rows + cols := by ring
  have e4 : cols * 2 ≤ cols * rows := Nat.mul_le_mul_left cols h2
  rw [dyColData, if_pos h2, upd_other _ (by omega), upd_self]

lemma dyColData_first2 {arr : List Nat} {rows cols col : Nat} (f : Nat → Int)
    (h2 : 1 < rows) :
    dyColData arr rows cols col f (cols + col) =
      -(arr.getD (cols + col) 0 : Int) := by
  rw [dyColData, if_pos h2, upd_self]

lemma dyBorderData_frame {arr : List Nat} {rows cols : Nat} :
    ∀ (n col : Nat) (f : Nat → Int) (j : Nat),
    (∀ c, col ≤ c → c < col + n → j ∉ dyColLog rows cols c) →
    dyBorderData arr rows cols col n f j = f j := by
  intro n
  induction n with
  | zero => intro col f j _; rw [dyBorderData]
  | succ m ih =>
      intro col f j h
      rw [dyBorderData, ih (col + 1) _ j (fun c h1 h2 => h c (by omega) (by omega)),
        dyColData_frame (h col (by omega) (by omega))]

lemma dyBorderData_values {arr : List Nat} {rows cols : Nat} :
    ∀ (n col0 : Nat) (f : Nat → Int) (col : Nat), 1 ≤ rows →
    col0 + n ≤ cols → col0 ≤ col → col < col0 + n →
    dyBorderData arr rows cols col0 n f (cols * (rows + 2) - col - 1) =
      (arr.getD (cols * rows - col - 1) 0 : Int) ∧
    dyBorderData arr rows cols col0 n f col = -(arr.getD col 0 : Int) ∧
    (1 < rows →
      dyBorderData arr rows cols col0 n f (cols * (rows + 1) - col - 1) =
        (arr.getD (cols * (rows - 1) - col - 1) 0 : Int) ∧
      dyBorderData arr rows cols col0 n f (cols + col) =
        -(arr.getD (cols + col) 0 : Int)) := by
  intro n
  induction n with
  | zero => intro col0 f col _ _ h1 h2; omega
  | succ m ih =>
      intro col0 f col hr hn h1 h2
      rw [dyBorderData]
      by_cases hcc : col = col0
      · subst hcc
        have hcol : col < cols := by omega
        have hfr : ∀ j, j ∈ dyColLog rows cols col →
            dyBorderData arr rows cols (col + 1) m (dyColData arr rows cols col f) j
              = dyColData arr rows cols col f j := by
          intro j hj
          exact dyBorderData_frame m (col + 1) _ j
            (fun c hcl hcr => by
              intro hjc
              exact dyColLog_disjoint (by omega) (by omega) hr (by omega) hjc hj)
        refine ⟨?_, ?_, fun h2r => ⟨?_, ?_⟩⟩
        · rw [hfr _ ?mem, dyColData_last f hcol hr]
          case mem =>
            rw [dyColLog]
            by_cases h2r : 1 < rows
            · rw [if_pos h2r]; simp
            · rw [if_neg h2r]; simp
        · rw [hfr _ ?mem, dyColData_first f hcol hr]
          case mem =>
            rw [dyColLog]
            by_cases h2r : 1 < rows
            · rw [if_pos h2r]; simp
            · rw [if_neg h2r]; simp
        · rw [hfr _ ?mem, dyColData_last2 f hcol h2r]
          case mem => rw [dyColLog, if_pos h2r]; simp
        · rw [hfr _ ?mem, dyColData_first2 f h2r]
          case mem => rw [dyColLog, if_pos h2r]; simp
      · exact ih (col0 + 1) _ col hr (by omega) (by omega) (by omega)

lemma dyColData_bounds {arr : List Nat} {rows cols col : Nat} {f : Nat → Int}
    (hu8 : ∀ x ∈ arr, x < 256)
    (hf : ∀ j, -255 ≤ f j ∧ f j ≤ 255) :
    ∀ j, -255 ≤ dyColData arr rows cols col f j ∧
      dyColData arr rows cols col f j ≤ 255 := by
  intro j
  have g1 := getD_u8_any hu8 (cols * rows - col - 1)
  have g2 := getD_u8_any hu8 col
  have g3 := getD_u8_any hu8 (cols * (rows - 1) - col - 1)
  have g4 := getD_u8_any hu8 (cols + col)
  rw [dyColData]
  by_cases h2 : 1 < rows
  · rw [if_pos h2]
    simp only [upd]
    split_ifs
    · constructor <;> omega
    · constructor <;> omega
    · constructor <;> omega
    · constructor <;> omega
    · exact hf j
  · rw [if_neg h2]
    simp only [upd]
    split_ifs
    · constructor <;> omega
    · constructor <;> omega
    · exact hf j

lemma dyBorderData_bounds {arr : List Nat} {rows cols : Nat}
    (hu8 : ∀ x ∈ arr, x < 256) :
    ∀ (n col : Nat) (f : Nat → Int),
    (∀ j, -255 ≤ f j ∧ f j ≤ 255) →
    ∀ j, -255 ≤ dyBorderData arr rows cols col n f j ∧
      dyBorderData arr rows cols col n f j ≤ 255 := by
  intro n
  induction n with
  | zero => intro col f hf j; rw [dyBorderData]; exact hf j
  | succ m ih =>
      intro col f hf j
      rw [dyBorderData]
      exact ih (col + 1) _ (dyColData_bounds hu8 hf) j

/-! ### Characterization of the interior loop of `compute_dy` -/

lemma dyInnerCell_eq {arr : List Nat} {cols row col : Nat} {L : Nat}
    {f : Nat → Int} {lg : List Nat}
    (hcol : col < cols)
    (ha : (row + 3) * cols ≤ arr.length)
    (hu8 : ∀ x ∈ arr, x < 256)
    (hb : (row + 3) * cols ≤ L) :
    dyInnerCell arr cols row col ⟨L, f, lg⟩ =
      some ⟨L,
        upd f ((row + 2) * cols + col)
          ((arr.getD (row * cols + col) 0 : Int) -
            (arr.getD ((row + 2) * cols + col) 0 : Int)),
        lg ++ [(row + 2) * cols + col]⟩ := by
  have b1 : (row + 2) * cols = row * cols + 2 * cols := by ring
  have b2 : (row + 3) * cols = row * cols + 3 * cols := by ring
  have h1 : row * cols + col < arr.length := by omega
  have h2 : (row + 2) * cols + col < arr.length := by omega
  have h3 : (row + 2) * cols + col < L := by omega
  rw [dyInnerCell, rd_eq h1, Option.some_bind, rd_eq h2, Option.some_bind,
    i16chk_sub (getD_lt_of_u8 hu8 h1) (getD_lt_of_u8 hu8 h2), Option.some_bind,
    wr_eq h3]

lemma dyInnerRow_eq {arr : List Nat} {cols row : Nat} :
    ∀ (n col : Nat) (L : Nat) (f : Nat → Int) (lg : List Nat),
    col + n ≤ cols →
    (row + 3) * cols ≤ arr.length → (∀ x ∈ arr, x < 256) →
    (row + 3) * cols ≤ L →
    dyInnerRow arr cols row col n ⟨L, f, lg⟩ =
      some ⟨L, dyInnerRowData arr cols row col n f,
        lg ++ dyInnerRowLog cols row col n⟩ := by
  intro n
  induction n with
  | zero =>
      intro col L f lg _ _ _ _
      simp [dyInnerRow, dyInnerRowData, dyInnerRowLog]
  | succ m ih =>
      intro col L f lg hcn ha hu8 hb
      rw [dyInnerRow, dyInnerCell_eq (by omega) ha hu8 hb, Option.some_bind,
        ih (col + 1) L _ _ (by omega) ha hu8 hb]
      simp [dyInnerRowData, dyInnerRowLog]

lemma dyInnerLoop_eq {arr : List Nat} {cols : Nat} :
    ∀ (n row : Nat) (L : Nat) (f : Nat → Int) (lg : List Nat),
    (row + n + 2) * cols ≤ arr.length → (∀ x ∈ arr, x < 256) →
    (row + n + 2) * cols ≤ L →
    dyInnerLoop arr cols row n ⟨L, f, lg⟩ =
      some ⟨L, dyInnerData arr cols row n f, lg ++ dyInnerLog cols row n⟩ := by
  intro n
  induction n with
  | zero =>
      intro row L f lg _ _ _
      simp [dyInnerLoop, dyInnerData, dyInnerLog]
  | succ m ih =>
      intro row L f lg ha hu8 hb
      have hm : row + 3 ≤ row + (m + 1) + 2 := by omega
      have ha1 : (row + 3) * cols ≤ arr.length :=
        le_trans (Nat.mul_le_mul_right cols hm) ha
      have hb1 : (row + 3) * cols ≤ L :=
        le_trans (Nat.mul_le_mul_right cols hm) hb
      have ha2 : (row + 1 + m + 2) * cols ≤ arr.length := by
        have e : row + 1 + m + 2 = row + (m + 1) + 2 := by omega
        rw [e]; exact ha
      have hb2 : (row + 1 + m + 2) * cols ≤ L := by
        have e : row + 1 + m + 2 = row + (m + 1) + 2 := by omega
        rw [e]; exact hb
      rw [dyInnerLoop, dyInnerRow_eq cols 0 L f lg (by omega) ha1 hu8 hb1,
        Option.some_bind, ih (row + 1) L _ _ ha2 hu8 hb2]
      simp [dyInnerData, dyInnerLog]

/-! ### Pointwise facts about the interior-loop effect of `compute_dy` -/

lemma mem_dyInnerRowLog {cols row : Nat} :
    ∀ {n col j : Nat}, j ∈ dyInnerRowLog cols row col n →
    ∃ c, col ≤ c ∧ c < col + n ∧ j = (row + 2) * cols + c := by
  intro n
  induction n with
  | zero => intro col j h; rw [dyInnerRowLog] at h; exact absurd h (List.not_mem_nil _)
  | succ m ih =>
      intro col j h
      rw [dyInnerRowLog, List.mem_cons] at h
      rcases h with h | h
      · exact ⟨col, by omega, by omega, h⟩
      · obtain ⟨c, hc1, hc2, hc3⟩ := ih h
        exact ⟨c, by omega, by omega, hc3⟩

lemma dyInnerRowData_frame {arr : List Nat} {cols row : Nat} :
    ∀ {n col : Nat} {f : Nat → Int} {j : Nat},
    j ∉ dyInnerRowLog cols row col n →
    dyInnerRowData arr cols row col n f j = f j := by
  intro n
  induction n with
  | zero => intro col f j _; rw [dyInnerRowData]
  | succ m ih =>
      intro col f j h
      rw [dyInnerRowLog, List.mem_cons] at h
      push_neg at h
      rw [dyInnerRowData, ih h.2, upd_other _ h.1]

lemma dyInnerRowData_value {arr : List Nat} {cols row : Nat} :
    ∀ (n col : Nat) (f : Nat → Int) (c : Nat), col ≤ c → c < col + n →
    dyInnerRowData arr cols row col n f ((row + 2) * cols + c) =
      (arr.getD (row * cols + c) 0 : Int) -
        (arr.getD ((row + 2) * cols + c) 0 : Int) := by
  intro n
  induction n with
  | zero => intro col f c h1 h2; omega
  | succ m ih =>
      intro col f c h1 h2
      rw [dyInnerRowData]
      by_cases hc : c = col
      · subst hc
        rw [dyInnerRowData_frame, upd_self]
        intro hmem
        obtain ⟨d, hd1, hd2, hd3⟩ := mem_dyInnerRowLog hmem
        omega
      · exact ih (col + 1) _ c (by omega) (by omega)

lemma mem_dyInnerLog {cols : Nat} :
    ∀ {n row j : Nat}, j ∈ dyInnerLog cols row n →
    ∃ r c, row ≤ r ∧ r < row + n ∧ c < cols ∧ j = (r + 2) * cols + c := by
  intro n
  induction n with
  | zero => intro row j h; rw [dyInnerLog] at h; exact absurd h (List.not_mem_nil _)
  | succ m ih =>
      intro row j h
      rw [dyInnerLog, List.mem_append] at h
      rcases h with h | h
      · obtain ⟨c, hc1, hc2, hc3⟩ := mem_dyInnerRowLog h
        exact ⟨row, c, by omega, by omega, by omega, hc3⟩
      · obtain ⟨r, c, h1, h2, h3, h4⟩ := ih h
        exact ⟨r, c, by omega, by omega, h3, h4⟩

lemma dyInnerData_frame {arr : List Nat} {cols : Nat} :
    ∀ {n row : Nat} {f : Nat → Int} {j : Nat},
    j ∉ dyInnerLog cols row n →
    dyInnerData arr cols row n f j = f j := by
  intro n
  induction n with
  | zero => intro row f j _; rw [dyInnerData]
  | succ m ih =>
      intro row f j h
      rw [dyInnerLog, List.mem_append] at h
      push_neg at h
      rw [dyInnerData, ih h.2, dyInnerRowData_frame h.1]

lemma dyInnerData_value {arr : List Nat} {cols : Nat} :
    ∀ (n row : Nat) (f : Nat → Int) (r c : Nat), row ≤ r → r < row + n →
    c < cols →
    dyInnerData arr cols row n f ((r + 2) * cols + c) =
      (arr.getD (r * cols + c) 0 : Int) -
        (arr.getD ((r + 2) * cols + c) 0 : Int) := by
  intro n
  induction n with
  | zero => intro row f r c h1 h2 _; omega
  | succ m ih =>
      intro row f r c h1 h2 hc
      rw [dyInnerData]
      by_cases hr : r = row
      · subst hr
        rw [dyInnerData_frame, dyInnerRowData_value cols 0 f c (by omega)
          (by omega)]
        intro hmem
        obtain ⟨s, d, hs1, hs2, hd, he⟩ := mem_dyInnerLog hmem
        exact slot_ne hc hd (show r + 2 ≠ s + 2 by omega) he
      · exact ih (row + 1) _ r c (by omega) (by omega) hc

lemma dyInnerRowData_bounds {arr : List Nat} {cols row : Nat}
    (hu8 : ∀ x ∈ arr, x < 256) :
    ∀ (n col : Nat) (f : Nat → Int),
    (∀ j, -255 ≤ f j ∧ f j ≤ 255) →
    ∀ j, -255 ≤ dyInnerRowData arr cols row col n f j ∧
      dyInnerRowData arr cols row col n f j ≤ 255 := by
  intro n
  induction n with
  | zero => intro col f hf j; rw [dyInnerRowData]; exact hf j
  | succ m ih =>
      intro col f hf j
      rw [dyInnerRowData]
      refine ih (col + 1) _ (fun i => ?_) j
      have g1 := getD_u8_any hu8 (row * cols + col)
      have g2 := getD_u8_any hu8 ((row + 2) * cols + col)
      rw [upd]
      split_ifs
      · constructor <;> omega
      · exact hf i

lemma dyInnerData_bounds {arr : List Nat} {cols : Nat}
    (hu8 : ∀ x ∈ arr, x < 256) :
    ∀ (n row : Nat) (f : Nat → Int),
    (∀ j, -255 ≤ f j ∧ f j ≤ 255) →
    ∀ j, -255 ≤ dyInnerData arr cols row n f j ∧
      dyInnerData arr cols row n f j ≤ 255 := by
  intro n
  induction n with
  | zero => intro row f hf j; rw [dyInnerData]; exact hf j
  | succ m ih =>
      intro row f hf j
      rw [dyInnerData]
      exact ih (row + 1) _ (dyInnerRowData_bounds hu8 cols 0 f hf) j

/-! ### Full characterization of `compute_dy` -/

lemma dyInnerRow_zero_cols {arr : List Nat} {row : Nat} (b : Buf) :
    dyInnerRow arr 0 row 0 0 b = some b := by
  rw [dyInnerRow]

lemma dyInnerLoop_zero_cols {arr : List Nat} :
    ∀ (n row : Nat) (b : Buf), dyInnerLoop arr 0 row n b = some b := by
  intro n
  induction n with
  | zero => intro row b; rw [dyInnerLoop]
  | succ m ih =>
      intro row b
      rw [dyInnerLoop, dyInnerRow_zero_cols, Option.some_bind, ih]

lemma dyInnerData_zero_cols {arr : List Nat} :
    ∀ (n row : Nat) (f : Nat → Int), dyInnerData arr 0 row n f = f := by
  intro n
  induction n with
  | zero => intro row f; rw [dyInnerData]
  | succ m ih =>
      intro row f
      rw [dyInnerData, dyInnerRowData, ih]

lemma dyInnerLog_zero_cols : ∀ (n row : Nat), dyInnerLog 0 row n = [] := by
  intro n
  induction n with
  | zero => intro row; rw [dyInnerLog]
  | succ m ih =>
      intro row
      rw [dyInnerLog, dyInnerRowLog, ih]
      rfl

lemma compute_dy_eq {arr : List Nat} {rows cols : Nat}
    (h : 1 ≤ rows ∨ cols = 0)
    (hlen : arr.length = rows * cols) (hu8 : ∀ x ∈ arr, x < 256) :
    compute_dy arr rows cols =
      some ⟨cols * (rows + 2), dyData arr rows cols, dyLog rows cols⟩ := by
  by_cases hc0 : cols = 0
  · subst hc0
    rw [compute_dy, dyBorderLoop, Option.some_bind]
    by_cases h2 : 2 < rows
    · rw [if_pos h2, dyInnerLoop_zero_cols, dyData, dyLog, if_pos h2, if_pos h2,
        dyBorderData, dyBorderLog, dyInnerData_zero_cols, dyInnerLog_zero_cols]
      simp
    · rw [if_neg h2, dyData, dyLog, if_neg h2, if_neg h2, dyBorderData,
        dyBorderLog]
      simp
  · have hr : 1 ≤ rows := by
      rcases h with h | h
      · exact h
      · exact absurd h hc0
    have haa : cols * rows ≤ arr.length := by
      rw [hlen, Nat.mul_comm]
    rw [compute_dy, dyBorderLoop_eq cols 0 (cols * (rows + 2)) (fun _ => 0) []
      (by omega) hr haa hu8 (le_refl _), Option.some_bind]
    by_cases h2 : 2 < rows
    · have e : (0 + (rows - 2) + 2) * cols = cols * rows := by
        have e2 : 0 + (rows - 2) + 2 = rows := by omega
        rw [e2, Nat.mul_comm]
      have e3 : cols * rows ≤ cols * (rows + 2) :=
        Nat.mul_le_mul_left cols (by omega)
      rw [if_pos h2, dyInnerLoop_eq (rows - 2) 0 (cols * (rows + 2)) _ _
        (by omega) hu8 (by omega), dyData, dyLog, if_pos h2, if_pos h2]
      simp
    · rw [if_neg h2, dyData, dyLog, if_neg h2, if_neg h2]
      simp

lemma compute_dy_zero_rows {arr : List Nat} {cols : Nat} (hc : 1 ≤ cols) :
    compute_dy arr 0 cols = none := by
  cases cols with
  | zero => omega
  | succ m =>
      rw [compute_dy, dyBorderLoop, dyBorderCol, dySetLast,
        sub?_eq (show 0 ≤ (m + 1) * (0 + 2) by omega), Option.some_bind,
        sub?_eq (show 1 ≤ (m + 1) * (0 + 2) - 0 by simp [Nat.zero_add]; omega),
        Option.some_bind]
      have hnone : sub? ((m + 1) * 0 - 0) 1 = none := by
        rw [sub?, if_neg]
        simp
      rw [show sub? ((m + 1) * 0) 0 = some ((m + 1) * 0 - 0) from
        sub?_eq (by omega), Option.some_bind, hnone]
      simp

/-! ### Pointwise facts about `dyData`, and degenerate-shape lemmas -/

lemma dy_border_slot_not_inner {cols rows j : Nat}
    (h : j < 2 * cols ∨ cols * rows ≤ j) :
    j ∉ dyInnerLog cols 0 (rows - 2) := by
  intro hmem
  obtain ⟨s, c, _, hs2, hc, he⟩ := mem_dyInnerLog hmem
  have b1 : (s + 2) * cols = s * cols + 2 * cols := by ring
  have b2 : (s + 3) * cols ≤ rows * cols := Nat.mul_le_mul_right cols (by omega)
  have b3 : (s + 3) * cols = s * cols + 3 * cols := by ring
  have b4 : cols * rows = rows * cols := Nat.mul_comm cols rows
  omega

lemma dyData_last {arr : List Nat} {rows cols col : Nat} (hcol : col < cols)
    (hr : 1 ≤ rows) :
    dyData arr rows cols (cols * (rows + 2) - col - 1) =
      (arr.getD (cols * rows - col - 1) 0 : Int) := by
  have e1 : cols * (rows + 2) = cols * rows + 2 * cols := by ring
  have e3 : cols * 1 ≤ cols * rows := Nat.mul_le_mul_left cols hr
  rw [dyData]
  by_cases h2 : 2 < rows
  · rw [if_pos h2, dyInnerData_frame (dy_border_slot_not_inner (Or.inr (by omega)))]
    exact (dyBorderData_values cols 0 _ col hr (by omega) (by omega) (by omega)).1
  · rw [if_neg h2]
    exact (dyBorderData_values cols 0 _ col hr (by omega) (by omega) (by omega)).1

lemma dyData_first {arr : List Nat} {rows cols col : Nat} (hcol : col < cols)
    (hr : 1 ≤ rows) :
    dyData arr rows cols col = -(arr.getD col 0 : Int) := by
  rw [dyData]
  by_cases h2 : 2 < rows
  · rw [if_pos h2, dyInnerData_frame (dy_border_slot_not_inner (Or.inl (by omega)))]
    exact (dyBorderData_values cols 0 _ col hr (by omega) (by omega)
      (by omega)).2.1
  · rw [if_neg h2]
    exact (dyBorderData_values cols 0 _ col hr (by omega) (by omega)
      (by omega)).2.1

lemma dyData_last2 {arr : List Nat} {rows cols col : Nat} (hcol : col < cols)
    (h2r : 1 < rows) :
    dyData arr rows cols (cols * (rows + 1) - col - 1) =
      (arr.getD (cols * (rows - 1) - col - 1) 0 : Int) := by
  have e2 : cols * (rows + 1) = cols * rows + cols := by ring
  rw [dyData]
  by_cases h2 : 2 < rows
  · rw [if_pos h2, dyInnerData_frame (dy_border_slot_not_inner (Or.inr (by omega)))]
    exact ((dyBorderData_values cols 0 _ col (by omega) (by omega) (by omega)
      (by omega)).2.2 h2r).1
  · rw [if_neg h2]
    exact ((dyBorderData_values cols 0 _ col (by omega) (by omega) (by omega)
      (by omega)).2.2 h2r).1

lemma dyData_first2 {arr : List Nat} {rows cols col : Nat} (hcol : col < cols)
    (h2r : 1 < rows) :
    dyData arr rows cols (cols + col) = -(arr.getD (cols + col) 0 : Int) := by
  rw [dyData]
  by_cases h2 : 2 < rows
  · rw [if_pos h2, dyInnerData_frame (dy_border_slot_not_inner (Or.inl (by omega)))]
    exact ((dyBorderData_values cols 0 _ col (by omega) (by omega) (by omega)
      (by omega)).2.2 h2r).2
  · rw [if_neg h2]
    exact ((dyBorderData_values cols 0 _ col (by omega) (by omega) (by omega)
      (by omega)).2.2 h2r).2

lemma dyData_inner {arr : List Nat} {rows cols r c : Nat} (h2 : 2 < rows)
    (hr : r < rows - 2) (hc : c < cols) :
    dyData arr rows cols ((r + 2) * cols + c) =
      (arr.getD (r * cols + c) 0 : Int) -
        (arr.getD ((r + 2) * cols + c) 0 : Int) := by
  rw [dyData, if_pos h2]
  exact dyInnerData_value (rows - 2) 0 _ r c (by omega) (by omega) hc

lemma dyData_bounds {arr : List Nat} {rows cols : Nat}
    (hu8 : ∀ x ∈ arr, x < 256) :
    ∀ j, -255 ≤ dyData arr rows cols j ∧ dyData arr rows cols j ≤ 255 := by
  intro j
  have h0 : ∀ i : Nat, -255 ≤ (0 : Int) ∧ (0 : Int) ≤ 255 := by
    intro i; constructor <;> omega
  rw [dyData]
  by_cases h2 : 2 < rows
  · rw [if_pos h2]
    exact dyInnerData_bounds hu8 (rows - 2) 0 _
      (dyBorderData_bounds hu8 cols 0 _ (fun i => h0 i)) j
  · rw [if_neg h2]
    exact dyBorderData_bounds hu8 cols 0 _ (fun i => h0 i) j

lemma compute_dx_eq_zero_rows (arr : List Nat) (cols : Nat) :
    compute_dx arr 0 cols =
      some ⟨0 * (cols + 2), dxData arr 0 cols, dxLog 0 cols⟩ := by
  rw [compute_dx, dxBorderLoop, Option.some_bind]
  by_cases h2 : 2 < cols
  · rw [if_pos h2, dxInnerLoop, dxData, dxLog, if_pos h2, if_pos h2,
      dxBorderData, dxBorderLog, dxInnerData, dxInnerLog]
    simp
  · rw [if_neg h2, dxData, dxLog, if_neg h2, if_neg h2, dxBorderData,
      dxBorderLog]
    simp

/-! ### Lemmas about `get_min` and `get_max` -/

lemma foldl_min_le (l : List Int) : ∀ a : Int, l.foldl min a ≤ a := by
  induction l with
  | nil => intro a; exact le_refl a
  | cons x t ih =>
      intro a
      calc t.foldl min (min a x) ≤ min a x := ih (min a x)
      _ ≤ a := min_le_left a x

lemma le_foldl_max (l : List Int) : ∀ a : Int, a ≤ l.foldl max a := by
  induction l with
  | nil => intro a; exact le_refl a
  | cons x t ih =>
      intro a
      calc a ≤ max a x := le_max_left a x
      _ ≤ t.foldl max (max a x) := ih (max a x)

/-! ### Write counts for `compute_dx`: every in-range cell is written exactly
once when `cols ≥ 2` -/

lemma mem_dxRowLog_elim {cols row j : Nat} (h : j ∈ dxRowLog cols row) :
    j = row * (cols + 2) + (cols + 1) ∨ j = row * (cols + 2) ∨
      (1 < cols ∧ (j = row * (cols + 2) + cols ∨ j = row * (cols + 2) + 1)) := by
  rw [dxRowLog] at h
  by_cases h2 : 1 < cols
  · rw [if_pos h2] at h
    simp only [List.mem_cons, List.mem_singleton, List.not_mem_nil, or_false] at h
    tauto
  · rw [if_neg h2] at h
    simp only [List.mem_cons, List.mem_singleton, List.not_mem_nil, or_false] at h
    tauto

lemma dxRowLog_nodup {cols row : Nat} (h2 : 2 ≤ cols) :
    (dxRowLog cols row).Nodup := by
  rw [dxRowLog, if_pos (show 1 < cols by omega)]
  refine List.nodup_cons.mpr ⟨?_, List.nodup_cons.mpr ⟨?_,
    List.nodup_cons.mpr ⟨?_, List.nodup_singleton _⟩⟩⟩ <;>
    simp only [List.mem_cons, List.mem_singleton, List.not_mem_nil, or_false] <;>
    omega

lemma mem_dxBorderLog {cols : Nat} :
    ∀ {n row j : Nat}, j ∈ dxBorderLog cols row n →
    ∃ r, row ≤ r ∧ r < row + n ∧ j ∈ dxRowLog cols r := by
  intro n
  induction n with
  | zero => intro row j h; rw [dxBorderLog] at h; exact absurd h (List.not_mem_nil _)
  | succ m ih =>
      intro row j h
      rw [dxBorderLog, List.mem_append] at h
      rcases h with h | h
      · exact ⟨row, by omega, by omega, h⟩
      · obtain ⟨r, h1, h2, h3⟩ := ih h
        exact ⟨r, by omega, by omega, h3⟩

lemma count_dxBorderLog_one {cols : Nat} (hcc : 2 ≤ cols) :
    ∀ (n row r j : Nat), row ≤ r → r < row + n → j ∈ dxRowLog cols r →
    (dxBorderLog cols row n).count j = 1 := by
  intro n
  induction n with
  | zero => intro row r j h1 h2 _; omega
  | succ m ih =>
      intro row r j h1 h2 hj
      rw [dxBorderLog, List.count_append]
      by_cases hr : r = row
      · subst hr
        have hz : (dxBorderLog cols (r + 1) m).count j = 0 := by
          rw [List.count_eq_zero]
          intro hmem
          obtain ⟨s, hs1, hs2, hjs⟩ := mem_dxBorderLog hmem
          exact dxRowLog_disjoint hj (by omega) hjs
        rw [List.count_eq_one_of_mem (dxRowLog_nodup hcc) hj, hz]
      · have hz : (dxRowLog cols row).count j = 0 := by
          rw [List.count_eq_zero]
          exact dxRowLog_disjoint hj (by omega)
        rw [hz, ih (row + 1) r j (by omega) (by omega) hj]

lemma count_dxBorderLog_zero {cols : Nat} {n row j : Nat}
    (h : ∀ r, row ≤ r → r < row + n → j ∉ dxRowLog cols r) :
    (dxBorderLog cols row n).count j = 0 := by
  rw [List.count_eq_zero]
  intro hmem
  obtain ⟨r, h1, h2, hj⟩ := mem_dxBorderLog hmem
  exact h r h1 h2 hj

lemma mem_dxInnerRowLog_intro {cols row : Nat} :
    ∀ (n col c : Nat), col ≤ c → c < col + n →
    (row * (cols + 2) + 2 + c) ∈ dxInnerRowLog cols row col n := by
  intro n
  induction n with
  | zero => intro col c h1 h2; omega
  | succ m ih =>
      intro col c h1 h2
      rw [dxInnerRowLog, List.mem_cons]
      by_cases hc : c = col
      · subst hc; exact Or.inl rfl
      · exact Or.inr (ih (col + 1) c (by omega) (by omega))

lemma dxInnerRowLog_nodup {cols row : Nat} :
    ∀ (n col : Nat), (dxInnerRowLog cols row col n).Nodup := by
  intro n
  induction n with
  | zero => intro col; rw [dxInnerRowLog]; exact List.nodup_nil
  | succ m ih =>
      intro col
      rw [dxInnerRowLog]
      refine List.nodup_cons.mpr ⟨?_, ih (col + 1)⟩
      intro hmem
      obtain ⟨c, hc1, hc2, hc3⟩ := mem_dxInnerRowLog hmem
      omega

lemma count_dxInnerLog_one {cols : Nat} :
    ∀ (n row r c : Nat), row ≤ r → r < row + n → c < cols - 2 →
    (dxInnerLog cols row n).count (r * (cols + 2) + 2 + c) = 1 := by
  intro n
  induction n with
  | zero => intro row r c h1 h2 _; omega
  | succ m ih =>
      intro row r c h1 h2 hc
      rw [dxInnerLog, List.count_append]
      by_cases hr : r = row
      · subst hr
        have hone : (dxInnerRowLog cols r 0 (cols - 2)).count
            (r * (cols + 2) + 2 + c) = 1 :=
          List.count_eq_one_of_mem (dxInnerRowLog_nodup (cols - 2) 0)
            (mem_dxInnerRowLog_intro (cols - 2) 0 c (by omega) (by omega))
        have hz : (dxInnerLog cols (r + 1) m).count (r * (cols + 2) + 2 + c)
            = 0 := by
          rw [List.count_eq_zero]
          intro hmem
          obtain ⟨s, d, hs1, hs2, hd, he⟩ := mem_dxInnerLog hmem
          have he2 : r * (cols + 2) + (2 + c) = s * (cols + 2) + (2 + d) := by
            omega
          exact slot_ne (show 2 + c < cols + 2 by omega)
            (show 2 + d < cols + 2 by omega) (show r ≠ s by omega) he2
        rw [hone, hz]
      · have hz : (dxInnerRowLog cols row 0 (cols - 2)).count
            (r * (cols + 2) + 2 + c) = 0 := by
          rw [List.count_eq_zero]
          intro hmem
          obtain ⟨d, hd1, hd2, hd3⟩ := mem_dxInnerRowLog hmem
          have he2 : r * (cols + 2) + (2 + c) = row * (cols + 2) + (2 + d) := by
            omega
          exact slot_ne (show 2 + c < cols + 2 by omega)
            (show 2 + d < cols + 2 by omega) hr he2
        rw [hz, ih (row + 1) r c (by omega) (by omega) hc]

lemma dxLog_count {rows cols : Nat} (h2 : 2 ≤ cols) :
    ∀ i, i < rows * (cols + 2) → (dxLog rows cols).count i = 1 := by
  intro i hi
  have hpos : 0 < cols + 2 := by omega
  obtain ⟨q, o, hq, ho, hi2⟩ : ∃ q o, q < rows ∧ o < cols + 2 ∧
      i = q * (cols + 2) + o :=
    ⟨i / (cols + 2), i % (cols + 2), (Nat.div_lt_iff_lt_mul hpos).mpr hi,
      Nat.mod_lt _ hpos,
      by rw [Nat.mul_comm]; exact (Nat.div_add_mod i (cols + 2)).symm⟩
  rw [dxLog, List.count_append]
  by_cases hcase : o = cols + 1 ∨ o = 0 ∨ o = cols ∨ o = 1
  · have hb : (dxBorderLog cols 0 rows).count i = 1 := by
      apply count_dxBorderLog_one h2 rows 0 q i (by omega) (by omega)
      rw [dxRowLog, if_pos (show 1 < cols by omega)]
      simp only [List.mem_cons, List.mem_singleton, List.not_mem_nil, or_false]
      omega
    have hin : (if 2 < cols then dxInnerLog cols 0 rows else []).count i = 0 := by
      by_cases h3 : 2 < cols
      · rw [if_pos h3, List.count_eq_zero, hi2]
        exact dx_slot_not_inner ho (fun d hd => by omega)
      · rw [if_neg h3]
        rfl
    rw [hb, hin]
  · have h3 : 2 < cols := by omega
    have hb : (dxBorderLog cols 0 rows).count i = 0 := by
      apply count_dxBorderLog_zero
      intro r hr1 hr2 hmem
      have key : ∀ p, p < cols + 2 → i = r * (cols + 2) + p →
          (o = p → False) → False := by
        intro p hp he hop
        by_cases hrq : r = q
        · subst hrq; exact hop (by omega)
        · exact slot_ne ho hp (show q ≠ r by omega) (by omega)
      rcases mem_dxRowLog_elim hmem with h | h | ⟨-, h | h⟩
      · exact key (cols + 1) (by omega) h (fun he => by omega)
      · exact key 0 (by omega) (by omega) (fun he => by omega)
      · exact key cols (by omega) h (fun he => by omega)
      · exact key 1 (by omega) h (fun he => by omega)
    have hin : (if 2 < cols then dxInnerLog cols 0 rows else []).count i = 1 := by
      rw [if_pos h3, show i = q * (cols + 2) + 2 + (o - 2) from by omega]
      exact count_dxInnerLog_one rows 0 q (o - 2) (by omega) (by omega) (by omega)
    rw [hb, hin]

/-! ### Write counts for `compute_dy`: every in-range cell is written exactly
once when `rows ≥ 2` -/

lemma dyColLog_nodup {rows cols col : Nat} (h2 : 1 < rows) (hcol : col < cols) :
    (dyColLog rows cols col).Nodup := by
  have e1 : cols * (rows + 2) = cols * rows + 2 * cols := by ring
  have e2 : cols * (rows + 1) = cols * rows + cols := by ring
  have e4 : cols * 2 ≤ cols * rows := Nat.mul_le_mul_left cols h2
  rw [dyColLog, if_pos h2]
  refine List.nodup_cons.mpr ⟨?_, List.nodup_cons.mpr ⟨?_,
    List.nodup_cons.mpr ⟨?_, List.nodup_singleton _⟩⟩⟩ <;>
    simp only [List.mem_cons, List.mem_singleton, List.not_mem_nil, or_false] <;>
    omega

lemma mem_dyBorderLog {rows cols : Nat} :
    ∀ {n col j : Nat}, j ∈ dyBorderLog rows cols col n →
    ∃ c, col ≤ c ∧ c < col + n ∧ j ∈ dyColLog rows cols c := by
  intro n
  induction n with
  | zero => intro col j h; rw [dyBorderLog] at h; exact absurd h (List.not_mem_nil _)
  | succ m ih =>
      intro col j h
      rw [dyBorderLog, List.mem_append] at h
      rcases h with h | h
      · exact ⟨col, by omega, by omega, h⟩
      · obtain ⟨c, h1, h2, h3⟩ := ih h
        exact ⟨c, by omega, by omega, h3⟩

lemma count_dyBorderLog_one {rows cols : Nat} (h2 : 1 < rows) :
    ∀ (n col0 c j : Nat), col0 ≤ c → c < col0 + n → col0 + n ≤ cols →
    j ∈ dyColLog rows cols c →
    (dyBorderLog rows cols col0 n).count j = 1 := by
  intro n
  induction n with
  | zero => intro col0 c j h1 hh _ _; omega
  | succ m ih =>
      intro col0 c j h1 hh hn hj
      rw [dyBorderLog, List.count_append]
      by_cases hc : c = col0
      · subst hc
        have hz : (dyBorderLog rows cols (c + 1) m).count j = 0 := by
          rw [List.count_eq_zero]
          intro hmem
          obtain ⟨s, hs1, hs2, hjs⟩ := mem_dyBorderLog hmem
          exact dyColLog_disjoint (by omega) (by omega) (by omega) (by omega)
            hj hjs
        rw [List.count_eq_one_of_mem (dyColLog_nodup h2 (by omega)) hj, hz]
      · have hz : (dyColLog rows cols col0).count j = 0 := by
          rw [List.count_eq_zero]
          exact dyColLog_disjoint (by omega) (by omega) (by omega) hc hj
        rw [hz, ih (col0 + 1) c j (by omega) (by omega) (by omega) hj]

lemma count_dyBorderLog_zero {rows cols : Nat} {n col j : Nat}
    (h : ∀ c, col ≤ c → c < col + n → j ∉ dyColLog rows cols c) :
    (dyBorderLog rows cols col n).count j = 0 := by
  rw [List.count_eq_zero]
  intro hmem
  obtain ⟨c, h1, h2, hj⟩ := mem_dyBorderLog hmem
  exact h c h1 h2 hj

lemma mem_dyInnerRowLog_intro {cols row : Nat} :
    ∀ (n col c : Nat), col ≤ c → c < col + n →
    ((row + 2) * cols + c) ∈ dyInnerRowLog cols row col n := by
  intro n
  induction n with
  | zero => intro col c h1 h2; omega
  | succ m ih =>
      intro col c h1 h2
      rw [dyInnerRowLog, List.mem_cons]
      by_cases hc : c = col
      · subst hc; exact Or.inl rfl
      · exact Or.inr (ih (col + 1) c (by omega) (by omega))

lemma dyInnerRowLog_nodup {cols row : Nat} :
    ∀ (n col : Nat), (dyInnerRowLog cols row col n).Nodup := by
  intro n
  induction n with
  | zero => intro col; rw [dyInnerRowLog]; exact List.nodup_nil
  | succ m ih =>
      intro col
      rw [dyInnerRowLog]
      refine List.nodup_cons.mpr ⟨?_, ih (col + 1)⟩
      intro hmem
      obtain ⟨c, hc1, hc2, hc3⟩ := mem_dyInnerRowLog hmem
      omega

lemma count_dyInnerLog_one {cols : Nat} :
    ∀ (n row r c : Nat), row ≤ r → r < row + n → c < cols →
    (dyInnerLog cols row n).count ((r + 2) * cols + c) = 1 := by
  intro n
  induction n with
  | zero => intro row r c h1 h2 _; omega
  | succ m ih =>
      intro row r c h1 h2 hc
      rw [dyInnerLog, List.count_append]
      by_cases hr : r = row
      · subst hr
        have hone : (dyInnerRowLog cols r 0 cols).count ((r + 2) * cols + c)
            = 1 :=
          List.count_eq_one_of_mem (dyInnerRowLog_nodup cols 0)
            (mem_dyInnerRowLog_intro cols 0 c (by omega) (by omega))
        have hz : (dyInnerLog cols (r + 1) m).count ((r + 2) * cols + c)
            = 0 := by
          rw [List.count_eq_zero]
          intro hmem
          obtain ⟨s, d, hs1, hs2, hd, he⟩ := mem_dyInnerLog hmem
          exact slot_ne hc hd (show r + 2 ≠ s + 2 by omega) he
        rw [hone, hz]
      · have hz : (dyInnerRowLog cols row 0 cols).count ((r + 2) * cols + c)
            = 0 := by
          rw [List.count_eq_zero]
          intro hmem
          obtain ⟨d, hd1, hd2, hd3⟩ := mem_dyInnerRowLog hmem
          exact slot_ne hc (show d < cols by omega)
            (show r + 2 ≠ row + 2 by omega) hd3
        rw [hz, ih (row + 1) r c (by omega) (by omega) hc]

lemma dyLog_count {rows cols : Nat} (h2 : 2 ≤ rows) :
    ∀ i, i < cols * (rows + 2) → (dyLog rows cols).count i = 1 := by
  intro i hi
  have e1 : cols * (rows + 2) = cols * rows + 2 * cols := by ring
  have e2 : cols * (rows + 1) = cols * rows + cols := by ring
  have hc1 : 1 ≤ cols := by
    rcases Nat.eq_zero_or_pos cols with h0 | h0
    · subst h0; omega
    · exact h0
  have e3 : cols * 1 ≤ cols * rows := Nat.mul_le_mul_left cols (by omega)
  have e4 : cols * 2 ≤ cols * rows := Nat.mul_le_mul_left cols h2
  have e5 : cols * rows = rows * cols := Nat.mul_comm cols rows
  have h2r : 1 < rows := by omega
  rw [dyLog, List.count_append]
  by_cases hb1 : i < cols
  · have hbc : (dyBorderLog rows cols 0 cols).count i = 1 := by
      apply count_dyBorderLog_one h2r cols 0 i i (by omega) (by omega) (by omega)
      rw [dyColLog, if_pos h2r]
      simp only [List.mem_cons, List.mem_singleton, List.not_mem_nil, or_false]
      exact Or.inr (Or.inl trivial)
    have hin : (if 2 < rows then dyInnerLog cols 0 (rows - 2) else []).count i
        = 0 := by
      by_cases h3 : 2 < rows
      · rw [if_pos h3, List.count_eq_zero]
        exact dy_border_slot_not_inner (Or.inl (by omega))
      · rw [if_neg h3]; rfl
    rw [hbc, hin]
  · by_cases hb2 : i < 2 * cols
    · have hbc : (dyBorderLog rows cols 0 cols).count i = 1 := by
        apply count_dyBorderLog_one h2r cols 0 (i - cols) i (by omega) (by omega)
          (by omega)
        rw [dyColLog, if_pos h2r]
        simp only [List.mem_cons, List.mem_singleton, List.not_mem_nil, or_false]
        exact Or.inr (Or.inr (Or.inr (by omega)))
      have hin : (if 2 < rows then dyInnerLog cols 0 (rows - 2) else []).count i
          = 0 := by
        by_cases h3 : 2 < rows
        · rw [if_pos h3, List.count_eq_zero]
          exact dy_border_slot_not_inner (Or.inl (by omega))
        · rw [if_neg h3]; rfl
      rw [hbc, hin]
    · by_cases hb3 : i < cols * rows
      · -- interior band
        have h3 : 2 < rows := by
          have : cols * 2 < cols * rows := by omega
          exact Nat.lt_of_mul_lt_mul_left this
        obtain ⟨r, c, hr, hcc, hieq⟩ : ∃ r c, r < rows - 2 ∧ c < cols ∧
            i = (r + 2) * cols + c := by
          have hdiv : i / cols < rows :=
            (Nat.div_lt_iff_lt_mul (by omega)).mpr (by omega)
          have hdiv2 : 2 ≤ i / cols :=
            (Nat.le_div_iff_mul_le (by omega)).mpr (by omega)
          refine ⟨i / cols - 2, i % cols, by omega, Nat.mod_lt _ (by omega), ?_⟩
          have e5 : i / cols - 2 + 2 = i / cols := by omega
          rw [e5, Nat.mul_comm]
          exact (Nat.div_add_mod i cols).symm
        have hbc : (dyBorderLog rows cols 0 cols).count i = 0 := by
          apply count_dyBorderLog_zero
          intro c2 hcl hcr hmem
          rcases mem_dyColLog hmem with h | h | ⟨-, h | h⟩ <;> omega
        have hin : (if 2 < rows then dyInnerLog cols 0 (rows - 2) else []).count i
            = 1 := by
          rw [if_pos h3, hieq]
          exact count_dyInnerLog_one (rows - 2) 0 r c (by omega) (by omega) hcc
        rw [hbc, hin]
      · by_cases hb4 : i < cols * (rows + 1)
        · have hbc : (dyBorderLog rows cols 0 cols).count i = 1 := by
            apply count_dyBorderLog_one h2r cols 0 (cols * (rows + 1) - i - 1) i
              (by omega) (by omega) (by omega)
            rw [dyColLog, if_pos h2r]
            simp only [List.mem_cons, List.mem_singleton, List.not_mem_nil,
              or_false]
            exact Or.inr (Or.inr (Or.inl (by omega)))
          have hin : (if 2 < rows then dyInnerLog cols 0 (rows - 2) else
              []).count i = 0 := by
            by_cases h3 : 2 < rows
            · rw [if_pos h3, List.count_eq_zero]
              exact dy_border_slot_not_inner (Or.inr (by omega))
            · rw [if_neg h3]; rfl
          rw [hbc, hin]
        · have hbc : (dyBorderLog rows cols 0 cols).count i = 1 := by
            apply count_dyBorderLog_one h2r cols 0 (cols * (rows + 2) - i - 1) i
              (by omega) (by omega) (by omega)
            rw [dyColLog, if_pos h2r]
            simp only [List.mem_cons, List.mem_singleton, List.not_mem_nil,
              or_false]
            exact Or.inl (by omega)
          have hin : (if 2 < rows then dyInnerLog cols 0 (rows - 2) else
              []).count i = 0 := by
            by_cases h3 : 2 < rows
            · rw [if_pos h3, List.count_eq_zero]
              exact dy_border_slot_not_inner (Or.inr (by omega))
            · rw [if_neg h3]; rfl
          rw [hbc, hin]

/-! ### The claims -/

/-- C1: for every grid with `rows > 0` and `cols > 2`, every row `r < rows`
and every `c < cols - 2`, the interior cell of `compute_dx` satisfies
`dx[r*(cols+2) + 2 + c] = grid[r*cols + c] - grid[r*cols + c + 2]`, the two
u8 samples being promoted to signed 16-bit integers before the
subtraction. -/
theorem C1_dx_interior (arr : List Nat) (rows cols r c : Nat)
    (hlen : arr.length = rows * cols) (hu8 : ∀ x ∈ arr, x < 256)
    (hcols : 2 < cols) (hr : r < rows) (hc : c < cols - 2) :
    ∃ b, compute_dx arr rows cols = some b ∧
      b.data (r * (cols + 2) + 2 + c) =
        (arr.getD (r * cols + c) 0 : Int) -
          (arr.getD (r * cols + c + 2) 0 : Int) :=
  ⟨_, compute_dx_eq (by omega) hlen hu8, dxData_inner hcols hr hc⟩

theorem C1_dx_interior_witness :
    ([10, 20, 30] : List Nat).length = 1 * 3 ∧
    (∃ b, compute_dx [10, 20, 30] 1 3 = some b ∧
      b.data (0 * (3 + 2) + 2 + 0) =
        (([10, 20, 30] : List Nat).getD (0 * 3 + 0) 0 : Int) -
          (([10, 20, 30] : List Nat).getD (0 * 3 + 0 + 2) 0 : Int)) :=
  ⟨by decide, C1_dx_interior [10, 20, 30] 1 3 0 0 (by decide) (by decide)
    (by decide) (by decide) (by decide)⟩

/-- C2: for every grid with `cols > 0` and `rows > 2`, every interior row
index `r < rows - 2` and every column `c < cols`, `compute_dy` satisfies
`dy[(r+2)*cols + c] = grid[r*cols + c] - grid[(r+2)*cols + c]`, with 16-bit
promotion before the subtraction. -/
theorem C2_dy_interior (arr : List Nat) (rows cols r c : Nat)
    (hlen : arr.length = rows * cols) (hu8 : ∀ x ∈ arr, x < 256)
    (hrows : 2 < rows) (hr : r < rows - 2) (hc : c < cols) :
    ∃ b, compute_dy arr rows cols = some b ∧
      b.data ((r + 2) * cols + c) =
        (arr.getD (r * cols + c) 0 : Int) -
          (arr.getD ((r + 2) * cols + c) 0 : Int) :=
  ⟨_, compute_dy_eq (Or.inl (by omega)) hlen hu8, dyData_inner hrows hr hc⟩

theorem C2_dy_interior_witness :
    ([5, 15, 25] : List Nat).length = 3 * 1 ∧
    (∃ b, compute_dy [5, 15, 25] 3 1 = some b ∧
      b.data ((0 + 2) * 1 + 0) =
        (([5, 15, 25] : List Nat).getD (0 * 1 + 0) 0 : Int) -
          (([5, 15, 25] : List Nat).getD ((0 + 2) * 1 + 0) 0 : Int)) :=
  ⟨by decide, C2_dy_interior [5, 15, 25] 3 1 0 0 (by decide) (by decide)
    (by decide) (by decide) (by decide)⟩

/-- C3: for every grid with `rows > 0` and `cols > 0` and every row `r`,
`compute_dx` writes the boundary cells: output column `cols+1` copies the
grid's last column value, output column `0` is the negated first column
value, and when `cols > 1`, output column `cols` copies the second-to-last
column value and output column `1` is the negated second column value. -/
theorem C3_dx_border (arr : List Nat) (rows cols r : Nat)
    (hlen : arr.length = rows * cols) (hu8 : ∀ x ∈ arr, x < 256)
    (hcols : 0 < cols) (hr : r < rows) :
    ∃ b, compute_dx arr rows cols = some b ∧
      b.data (r * (cols + 2) + (cols + 1)) =
        (arr.getD (r * cols + cols - 1) 0 : Int) ∧
      b.data (r * (cols + 2)) = -(arr.getD (r * cols) 0 : Int) ∧
      (1 < cols →
        b.data (r * (cols + 2) + cols) =
          (arr.getD (r * cols + cols - 2) 0 : Int) ∧
        b.data (r * (cols + 2) + 1) = -(arr.getD (r * cols + 1) 0 : Int)) :=
  ⟨_, compute_dx_eq hcols hlen hu8, dxData_last hcols hr, dxData_first hcols hr,
    fun h1 => ⟨dxData_last2 h1 hr, dxData_first2 h1 hr⟩⟩

theorem C3_dx_border_witness :
    ([10, 20, 30] : List Nat).length = 1 * 3 ∧
    (∃ b, compute_dx [10, 20, 30] 1 3 = some b ∧
      b.data (0 * (3 + 2) + (3 + 1)) =
        (([10, 20, 30] : List Nat).getD (0 * 3 + 3 - 1) 0 : Int) ∧
      b.data (0 * (3 + 2)) = -(([10, 20, 30] : List Nat).getD (0 * 3) 0 : Int) ∧
      (1 < 3 →
        b.data (0 * (3 + 2) + 3) =
          (([10, 20, 30] : List Nat).getD (0 * 3 + 3 - 2) 0 : Int) ∧
        b.data (0 * (3 + 2) + 1) =
          -(([10, 20, 30] : List Nat).getD (0 * 3 + 1) 0 : Int))) :=
  ⟨by decide, C3_dx_border [10, 20, 30] 1 3 0 (by decide) (by decide)
    (by decide) (by decide)⟩

/-- C4: for every grid with `rows > 0` and `cols > 0` and every column
`c < cols`, `compute_dy` writes the boundary cells with mirrored addressing:
flat index `cols*(rows+2) - c - 1` copies `grid[cols*rows - c - 1]`, index
`c` is the negated first-row value, and when `rows > 1`, index
`cols*(rows+1) - c - 1` copies `grid[cols*(rows-1) - c - 1]` and index
`cols + c` is the negated second-row value. -/
theorem C4_dy_border (arr : List Nat) (rows cols c : Nat)
    (hlen : arr.length = rows * cols) (hu8 : ∀ x ∈ arr, x < 256)
    (hrows : 0 < rows) (hc : c < cols) :
    ∃ b, compute_dy arr rows cols = some b ∧
      b.data (cols * (rows + 2) - c - 1) =
        (arr.getD (cols * rows - c - 1) 0 : Int) ∧
      b.data c = -(arr.getD c 0 : Int) ∧
      (1 < rows →
        b.data (cols * (rows + 1) - c - 1) =
          (arr.getD (cols * (rows - 1) - c - 1) 0 : Int) ∧
        b.data (cols + c) = -(arr.getD (cols + c) 0 : Int)) :=
  ⟨_, compute_dy_eq (Or.inl hrows) hlen hu8, dyData_last hc hrows,
    dyData_first hc hrows,
    fun h2 => ⟨dyData_last2 hc h2, dyData_first2 hc h2⟩⟩

theorem C4_dy_border_witness :
    ([5, 15, 25] : List Nat).length = 3 * 1 ∧
    (∃ b, compute_dy [5, 15, 25] 3 1 = some b ∧
      b.data (1 * (3 + 2) - 0 - 1) =
        (([5, 15, 25] : List Nat).getD (1 * 3 - 0 - 1) 0 : Int) ∧
      b.data 0 = -(([5, 15, 25] : List Nat).getD 0 0 : Int) ∧
      (1 < 3 →
        b.data (1 * (3 + 1) - 0 - 1) =
          (([5, 15, 25] : List Nat).getD (1 * (3 - 1) - 0 - 1) 0 : Int) ∧
        b.data (1 + 0) = -(([5, 15, 25] : List Nat).getD (1 + 0) 0 : Int))) :=
  ⟨by decide, C4_dy_border [5, 15, 25] 3 1 0 (by decide) (by decide)
    (by decide) (by decide)⟩

/-- C5 counterexample: the claim asserts that neither function fails on
degenerate dimensions, but `compute_dx` on a grid with `rows = 1`,
`cols = 0` panics (in the model, returns `none`): the read
`arr[row*cols + cols - 1]` underflows/goes out of bounds. -/
theorem C5_counterexample : compute_dx [] 1 0 = none := by rfl

/-- C5 (amended): `compute_dx` returns a buffer of length `rows*(cols+2)`
whenever `cols ≥ 1` or `rows = 0`, and `compute_dy` returns a buffer of
length `cols*(rows+2)` whenever `rows ≥ 1` or `cols = 0`; but `compute_dx`
panics when `rows > 0` and `cols = 0`, and `compute_dy` panics when
`cols > 0` and `rows = 0`. -/
theorem C5_lengths_amended (arr : List Nat) (rows cols : Nat)
    (hlen : arr.length = rows * cols) (hu8 : ∀ x ∈ arr, x < 256) :
    (1 ≤ cols ∨ rows = 0 →
      ∃ b, compute_dx arr rows cols = some b ∧ b.len = rows * (cols + 2)) ∧
    (1 ≤ rows ∨ cols = 0 →
      ∃ b, compute_dy arr rows cols = some b ∧ b.len = cols * (rows + 2)) ∧
    (rows ≠ 0 → cols = 0 → compute_dx arr rows cols = none) ∧
    (cols ≠ 0 → rows = 0 → compute_dy arr rows cols = none) := by
  refine ⟨?_, ?_, ?_, ?_⟩
  · intro h
    rcases h with h | h
    · exact ⟨_, compute_dx_eq h hlen hu8, rfl⟩
    · subst h
      exact ⟨_, compute_dx_eq_zero_rows arr cols, rfl⟩
  · intro h
    exact ⟨_, compute_dy_eq h hlen hu8, rfl⟩
  · intro h1 h2
    subst h2
    exact compute_dx_zero_cols (by omega)
  · intro h1 h2
    subst h2
    exact compute_dy_zero_rows (by omega)

theorem C5_lengths_amended_witness :
    ([7] : List Nat).length = 1 * 1 ∧
    (∃ b, compute_dx [7] 1 1 = some b ∧ b.len = 1 * (1 + 2)) ∧
    (∃ b, compute_dy [7] 1 1 = some b ∧ b.len = 1 * (1 + 2)) :=
  ⟨by decide,
    (C5_lengths_amended [7] 1 1 (by decide) (by decide)).1 (Or.inl (by decide)),
    (C5_lengths_amended [7] 1 1 (by decide) (by decide)).2.1
      (Or.inl (by decide))⟩

/-- C6 counterexample: the claim asserts that every in-range index is
written exactly once for every grid, but for a `1 × 1` grid the middle
padding cell (flat index `1`, in range of the length-3 `dx` buffer) is never
written: the write log of `compute_dx [5] 1 1` is `[2, 0]`, so index `1` has
write count `0`. -/
theorem C6_counterexample :
    (compute_dx [5] 1 1).map (fun b => (b.len, b.log.count 1)) =
      some (3, 0) := by rfl

/-- C6 (amended): provided `cols ≥ 2` (for `compute_dx`) and `rows ≥ 2`
(for `compute_dy`), every index in range of the result buffer is written
exactly once — each cell is populated either by the boundary logic or by the
interior loop, no cell is left untouched and none is written twice.  (For
`cols = 1`, resp. `rows = 1`, the middle padding cells are never written and
only retain the buffer's initial zero.) -/
theorem C6_write_once_amended (arr : List Nat) (rows cols : Nat)
    (hlen : arr.length = rows * cols) (hu8 : ∀ x ∈ arr, x < 256) :
    (2 ≤ cols → ∃ b, compute_dx arr rows cols = some b ∧
      ∀ i, i < rows * (cols + 2) → b.log.count i = 1) ∧
    (2 ≤ rows → ∃ b, compute_dy arr rows cols = some b ∧
      ∀ i, i < cols * (rows + 2) → b.log.count i = 1) := by
  constructor
  · intro h2
    exact ⟨_, compute_dx_eq (by omega) hlen hu8, dxLog_count h2⟩
  · intro h2
    exact ⟨_, compute_dy_eq (Or.inl (by omega)) hlen hu8, dyLog_count h2⟩

theorem C6_write_once_amended_witness :
    ([1, 2, 3, 4] : List Nat).length = 2 * 2 ∧
    (∃ b, compute_dx [1, 2, 3, 4] 2 2 = some b ∧
      ∀ i, i < 2 * (2 + 2) → b.log.count i = 1) :=
  ⟨by decide,
    (C6_write_once_amended [1, 2, 3, 4] 2 2 (by decide) (by decide)).1
      (by decide)⟩

/-- C7: whenever the convolutions run to completion, every value of the
`dx` and `dy` buffers is the exact integer result of the corresponding
negation, copy, or difference of u8 samples (the embedding checks every
16-bit arithmetic step, so success means no overflow or wraparound
occurred), and every value lies in `[-255, 255]`. -/
theorem C7_values_bounded (arr : List Nat) (rows cols : Nat)
    (hlen : arr.length = rows * cols) (hu8 : ∀ x ∈ arr, x < 256) :
    (1 ≤ cols ∨ rows = 0 → ∃ b, compute_dx arr rows cols = some b ∧
      ∀ j, -255 ≤ b.data j ∧ b.data j ≤ 255) ∧
    (1 ≤ rows ∨ cols = 0 → ∃ b, compute_dy arr rows cols = some b ∧
      ∀ j, -255 ≤ b.data j ∧ b.data j ≤ 255) := by
  constructor
  · intro h
    rcases h with h | h
    · exact ⟨_, compute_dx_eq h hlen hu8, dxData_bounds hu8⟩
    · subst h
      exact ⟨_, compute_dx_eq_zero_rows arr cols, dxData_bounds hu8⟩
  · intro h
    exact ⟨_, compute_dy_eq h hlen hu8, dyData_bounds hu8⟩

theorem C7_values_bounded_witness :
    ([0, 255] : List Nat).length = 1 * 2 ∧
    (∃ b, compute_dx [0, 255] 1 2 = some b ∧
      ∀ j, -255 ≤ b.data j ∧ b.data j ≤ 255) :=
  ⟨by decide,
    (C7_values_bounded [0, 255] 1 2 (by decide) (by decide)).1
      (Or.inl (by decide))⟩

/-- C8: `get_min` and `get_max` applied to an empty buffer both return `0`;
this is a defined degenerate convention, not a failure. -/
theorem C8_min_max_empty : get_min [] = 0 ∧ get_max [] = 0 :=
  ⟨rfl, rfl⟩

/-- C9: for every non-empty signed-16-bit buffer,
`get_min buffer ≤ get_max buffer`. -/
theorem C9_min_le_max (l : List Int) (h : l ≠ []) : get_min l ≤ get_max l := by
  cases l with
  | nil => exact absurd rfl h
  | cons a t =>
      have h1 : get_min (a :: t) = t.foldl min a := rfl
      have h2 : get_max (a :: t) = t.foldl max a := rfl
      rw [h1, h2]
      exact le_trans (foldl_min_le t a) (le_foldl_max t a)

theorem C9_min_le_max_witness :
    ([3, -5, 7] : List Int) ≠ [] ∧
      get_min [3, -5, 7] ≤ get_max [3, -5, 7] :=
  ⟨by decide, C9_min_le_max [3, -5, 7] (by decide)⟩

/-- C10: for every grid with `cols = 1`, each output row `r` of `compute_dx`
is exactly `[-v, 0, v]` with `v = grid[r]`: the leftmost cell is the negated
sample, the rightmost cell is the copied sample, and the middle cell keeps
the buffer's initial zero, because neither the `cols > 1` boundary branch
nor the `cols > 2` interior loop executes. -/
theorem C10_dx_cols_one (arr : List Nat) (rows r : Nat)
    (hlen : arr.length = rows * 1) (hu8 : ∀ x ∈ arr, x < 256)
    (hr : r < rows) :
    ∃ b, compute_dx arr rows 1 = some b ∧
      b.data (r * 3) = -(arr.getD r 0 : Int) ∧
      b.data (r * 3 + 1) = 0 ∧
      b.data (r * 3 + 2) = (arr.getD r 0 : Int) := by
  refine ⟨_, compute_dx_eq (by omega) hlen hu8, ?_, dxData_middle_one hr, ?_⟩
  · have h1 := @dxData_first arr rows 1 r (by omega) hr
    simpa using h1
  · have h1 := @dxData_last arr rows 1 r (by omega) hr
    simpa using h1

theorem C10_dx_cols_one_witness :
    ([10, 20] : List Nat).length = 2 * 1 ∧
    (∃ b, compute_dx [10, 20] 2 1 = some b ∧
      b.data (1 * 3) = -(([10, 20] : List Nat).getD 1 0 : Int) ∧
      b.data (1 * 3 + 1) = 0 ∧
      b.data (1 * 3 + 2) = (([10, 20] : List Nat).getD 1 0 : Int)) :=
  ⟨by decide, C10_dx_cols_one [10, 20] 2 1 (by decide) (by decide) (by decide)⟩

-- Sanity checks against the concrete scenarios of the specification.
example :
    (compute_dx [10, 20, 30] 1 3).map (fun b => (List.range b.len).map b.data)
      = some [-10, -20, -20, 20, 30] := by rfl

example :
    (compute_dy [5, 15, 25] 3 1).map (fun b => (List.range b.len).map b.data)
      = some [-5, -15, -20, 15, 25] := by rfl

example : compute_dx [] 1 0 = none := by rfl

example : (compute_dx [5] 1 1).map (fun b => b.log) = some [2, 0] := by rfl
